import Mathlib

/-!
Shallow embedding of the "My List" service core
(`src/utils/cache.ts`, `src/services/myListService.ts`,
`src/controllers/myListController.ts`, `src/middleware/errorHandler.ts`),
together with theorems checking the natural-language specification
against the code.

Modelling conventions:
* A JavaScript `Map` is modelled as an association list in insertion
  order (JS `Map` iterates in insertion order; `set` on an existing key
  keeps its position).
* `Date.now()` is passed explicitly as a `now : Nat` argument
  (milliseconds since epoch).
* `Number.POSITIVE_INFINITY` as an expiry stamp is modelled as `none`
  in an `Option Nat`; the comparison `now > entry.expiresAt` is false
  for infinity, matching the `Option` match below.
-/

set_option maxHeartbeats 1000000

/-! ## Cache engine (`src/utils/cache.ts`) -/

structure CacheOptions where
  ttlSeconds : Nat
  maxItems : Nat
deriving Repr, DecidableEq

structure CacheEntry (Value : Type) where
  value : Value
  /-- `none` models `Number.POSITIVE_INFINITY` (stored when `ttlSeconds == 0`). -/
  expiresAt : Option Nat
  lastAccessCounter : Nat
deriving Repr, DecidableEq

/-- The JS `Map<string, CacheEntry<Value>>` in insertion order, plus the
`options` and `accessCounter` fields of `InMemoryCache`. -/
structure InMemoryCache (Value : Type) where
  store : List (String × CacheEntry Value)
  options : CacheOptions
  accessCounter : Nat
deriving Repr, DecidableEq

namespace JsMap

/-- `Map.prototype.get`. -/
def mapGet {V : Type} (store : List (String × V)) (key : String) : Option V :=
  match store with
  | [] => none
  | (k, v) :: rest => if k = key then some v else mapGet rest key

/-- `Map.prototype.set`: overwrite in place when the key exists, append otherwise. -/
def mapSet {V : Type} (store : List (String × V)) (key : String) (value : V) :
    List (String × V) :=
  match store with
  | [] => [(key, value)]
  | (k, v) :: rest =>
    if k = key then (k, value) :: rest else (k, v) :: mapSet rest key value

/-- `Map.prototype.delete`. -/
def mapDelete {V : Type} (store : List (String × V)) (key : String) :
    List (String × V) :=
  match store with
  | [] => []
  | (k, v) :: rest =>
    if k = key then rest else (k, v) :: mapDelete rest key

end JsMap

open JsMap

namespace InMemoryCache

/-- A freshly constructed `InMemoryCache` (`new InMemoryCache(options)`). -/
def empty (V : Type) (options : CacheOptions) : InMemoryCache V :=
  { store := [], options := options, accessCounter := 0 }

/-- Has the entry expired at instant `now`?  Mirrors
`this.options.ttlSeconds > 0 && now > entry.expiresAt` where
`expiresAt` may be `+Infinity` (`none`). -/
def isExpired (ttlSeconds : Nat) (now : Nat) (expiresAt : Option Nat) : Bool :=
  ttlSeconds > 0 &&
    (match expiresAt with
     | some e => now > e
     | none => false)

/-- `InMemoryCache.get`, returning the looked-up value together with the
cache state after the call's side effects. -/
def get {V : Type} (c : InMemoryCache V) (now : Nat) (key : String) :
    Option V × InMemoryCache V :=
  match mapGet c.store key with
  | none => (none, c)
  | some entry =>
    if isExpired c.options.ttlSeconds now entry.expiresAt then
      (none, { c with store := mapDelete c.store key })
    else
      (some entry.value,
        { c with
          accessCounter := c.accessCounter + 1,
          store := mapSet c.store key
            { entry with lastAccessCounter := c.accessCounter + 1 } })

/-- The loop body of `enforceMaxItems`: track the entry with the lowest
`lastAccessCounter`, strict `<` so the earliest minimal entry wins.
The accumulator `none` models the initial
`lruKey = undefined, lowestCounter = +Infinity`. -/
def lruFold {V : Type} (acc : Option (String × Nat)) :
    List (String × CacheEntry V) → Option (String × Nat)
  | [] => acc
  | (k, e) :: rest =>
    lruFold
      (match acc with
       | none => some (k, e.lastAccessCounter)
       | some (bk, bc) =>
         if e.lastAccessCounter < bc then some (k, e.lastAccessCounter)
         else some (bk, bc))
      rest

/-- `InMemoryCache.enforceMaxItems`. -/
def enforceMaxItems {V : Type} (c : InMemoryCache V) : InMemoryCache V :=
  if c.store.length ≤ c.options.maxItems then c
  else
    match lruFold none c.store with
    | some (lruKey, _) => { c with store := mapDelete c.store lruKey }
    | none => c

/-- `InMemoryCache.set`. -/
def set {V : Type} (c : InMemoryCache V) (now : Nat) (key : String) (value : V) :
    InMemoryCache V :=
  let expiresAt : Option Nat :=
    if c.options.ttlSeconds > 0 then some (now + c.options.ttlSeconds * 1000)
    else none
  enforceMaxItems
    { c with
      accessCounter := c.accessCounter + 1,
      store := mapSet c.store key
        { value := value, expiresAt := expiresAt,
          lastAccessCounter := c.accessCounter + 1 } }

/-- `InMemoryCache.delete`. -/
def del {V : Type} (c : InMemoryCache V) (key : String) : InMemoryCache V :=
  { c with store := mapDelete c.store key }

/-- `InMemoryCache.clear`. -/
def clear {V : Type} (c : InMemoryCache V) : InMemoryCache V :=
  { c with store := [], accessCounter := 0 }

/-! ### Cache engine lemmas -/

/-- The expiry stamp `set` records (`now + ttlSeconds*1000`, or `+Infinity`). -/
def expiryStamp (ttlSeconds now : Nat) : Option Nat :=
  if ttlSeconds > 0 then some (now + ttlSeconds * 1000) else none

/-- Insert key/value pairs one after the other (`cache.set` in a loop),
all at wall-clock instant `now`. -/
def insertAll {V : Type} (c : InMemoryCache V) (now : Nat) :
    List (String × V) → InMemoryCache V
  | [] => c
  | (k, v) :: rest => insertAll (c.set now k v) now rest

/-- The store produced by inserting fresh keys in order, starting from
access counter `start`, each entry carrying expiry stamp `exp`. -/
def seededStore {V : Type} (exp : Option Nat) :
    Nat → List (String × V) → List (String × CacheEntry V)
  | _, [] => []
  | start, (k, v) :: rest =>
    (k, { value := v, expiresAt := exp, lastAccessCounter := start + 1 }) ::
      seededStore exp (start + 1) rest

end InMemoryCache

/-! ## Cache claim theorems -/
open InMemoryCache

/-! ### Operation sequences over the cache (for the size invariant) -/

/-- One public cache operation. -/
inductive CacheOp (V : Type)
  | opGet (now : Nat) (key : String)
  | opSet (now : Nat) (key : String) (value : V)
  | opDelete (key : String)
  | opClear

/-- Run one operation, keeping the resulting cache state. -/
def runOp {V : Type} (c : InMemoryCache V) : CacheOp V → InMemoryCache V
  | .opGet now key => (c.get now key).2
  | .opSet now key value => c.set now key value
  | .opDelete key => c.del key
  | .opClear => c.clear

/-- Run a sequence of operations left to right. -/
def runOps {V : Type} (c : InMemoryCache V) : List (CacheOp V) → InMemoryCache V
  | [] => c
  | op :: rest => runOps (runOp c op) rest

/-! ## Byte-level codecs backing the cursor token
(`Buffer.from(·, 'utf8')`, `Buffer.prototype.toString('base64')` and their
inverses, as used by `encodeCursor`/`decodeCursor` in
`src/services/myListService.ts`).  Strings are sequences of Unicode scalar
values (Lean `Char`), bytes are `Nat` below 256. -/

/-- U+FFFD replacement character, produced by the lossy UTF-8 decoder. -/
def replChar : Char := Char.ofNat 0xFFFD

/-- UTF-8 encoding of one Unicode scalar value. -/
def utf8EncodeChar (c : Char) : List Nat :=
  let v := c.toNat
  if v < 0x80 then [v]
  else if v < 0x800 then [0xC0 + v / 64, 0x80 + v % 64]
  else if v < 0x10000 then
    [0xE0 + v / 4096, 0x80 + (v / 64) % 64, 0x80 + v % 64]
  else
    [0xF0 + v / 262144, 0x80 + (v / 4096) % 64, 0x80 + (v / 64) % 64,
     0x80 + v % 64]

/-- UTF-8 encoding of a character sequence (`Buffer.from(s, 'utf8')`). -/
def utf8Encode (cs : List Char) : List Nat :=
  (cs.map utf8EncodeChar).flatten

/-- Decode one code point: given the lead byte and the remaining bytes,
return the character and how many continuation bytes were consumed. -/
def utf8DecodeOne (b1 : Nat) (rest : List Nat) : Char × Nat :=
  let b2 := rest.getD 0 0
  let b3 := rest.getD 1 0
  let b4 := rest.getD 2 0
  if b1 < 0x80 then (Char.ofNat b1, 0)
  else if b1 < 0xC2 then (replChar, 0)
  else if b1 < 0xE0 then
    if 0x80 ≤ b2 ∧ b2 < 0xC0 then
      (Char.ofNat ((b1 - 0xC0) * 64 + (b2 - 0x80)), 1)
    else (replChar, 0)
  else if b1 < 0xF0 then
    if (0x80 ≤ b2 ∧ b2 < 0xC0) ∧ (0x80 ≤ b3 ∧ b3 < 0xC0) then
      (if (b1 - 0xE0) * 4096 + (b2 - 0x80) * 64 + (b3 - 0x80) < 0x800 ∨
          (0xD800 ≤ (b1 - 0xE0) * 4096 + (b2 - 0x80) * 64 + (b3 - 0x80) ∧
            (b1 - 0xE0) * 4096 + (b2 - 0x80) * 64 + (b3 - 0x80) < 0xE000) then
        replChar
      else Char.ofNat ((b1 - 0xE0) * 4096 + (b2 - 0x80) * 64 + (b3 - 0x80)), 2)
    else (replChar, 0)
  else if b1 < 0xF5 then
    if (0x80 ≤ b2 ∧ b2 < 0xC0) ∧ (0x80 ≤ b3 ∧ b3 < 0xC0) ∧
        (0x80 ≤ b4 ∧ b4 < 0xC0) then
      (if (b1 - 0xF0) * 262144 + (b2 - 0x80) * 4096 + (b3 - 0x80) * 64 +
            (b4 - 0x80) < 0x10000 ∨
          0x110000 ≤ (b1 - 0xF0) * 262144 + (b2 - 0x80) * 4096 +
            (b3 - 0x80) * 64 + (b4 - 0x80) then
        replChar
      else
        Char.ofNat ((b1 - 0xF0) * 262144 + (b2 - 0x80) * 4096 +
          (b3 - 0x80) * 64 + (b4 - 0x80)), 3)
    else (replChar, 0)
  else (replChar, 0)

/-- Fuel-driven decoding loop; the fuel only bounds the number of steps
(each step consumes at least the lead byte), so any fuel at or above the
input length gives the same result (`utf8DecodeLoop_fuel`). -/
def utf8DecodeLoop : Nat → List Nat → List Char
  | _, [] => []
  | 0, _ :: _ => []
  | fuel + 1, b1 :: rest =>
    (utf8DecodeOne b1 rest).1 ::
      utf8DecodeLoop fuel (rest.drop (utf8DecodeOne b1 rest).2)

/-- Lossy UTF-8 decoding (`buffer.toString('utf8')`): malformed sequences
become U+FFFD.  Exact on valid UTF-8, which is all the encoder emits; the
resynchronisation after an invalid sequence is simplified. -/
def utf8Decode (l : List Nat) : List Char := utf8DecodeLoop l.length l

/-! ### Base64 (`buffer.toString('base64')` / `Buffer.from(s, 'base64')`) -/

/-- The standard base64 alphabet. -/
def base64Chars : List Char :=
  "ABCDEFGHIJKLMNOPQRSTUVWXYZabcdefghijklmnopqrstuvwxyz0123456789+/".data

def b64CharOfIndex (i : Nat) : Char := base64Chars.getD i 'A'

/-- Map one character to its 6-bit value; Node's forgiving decoder also
accepts the url-safe alphabet and ignores everything else (including '='). -/
def b64IndexOfChar (ch : Char) : Option Nat :=
  if ch = '+' then some 62
  else if ch = '/' then some 63
  else if ch = '-' then some 62
  else if ch = '_' then some 63
  else if 'A' ≤ ch ∧ ch ≤ 'Z' then some (ch.toNat - 65)
  else if 'a' ≤ ch ∧ ch ≤ 'z' then some (ch.toNat - 97 + 26)
  else if '0' ≤ ch ∧ ch ≤ '9' then some (ch.toNat - 48 + 52)
  else none

/-- Standard base64 encoding of a byte sequence, with '=' padding. -/
def b64EncodeBytes : List Nat → List Char
  | [] => []
  | [a] => [b64CharOfIndex (a / 4), b64CharOfIndex (a % 4 * 16), '=', '=']
  | [a, b] =>
    [b64CharOfIndex (a / 4), b64CharOfIndex (a % 4 * 16 + b / 16),
     b64CharOfIndex (b % 16 * 4), '=']
  | a :: b :: c :: rest =>
    b64CharOfIndex (a / 4) :: b64CharOfIndex (a % 4 * 16 + b / 16) ::
      b64CharOfIndex (b % 16 * 4 + c / 64) :: b64CharOfIndex (c % 64) ::
        b64EncodeBytes rest

/-- The 6-bit values of the characters of a token, ignoring non-alphabet
characters (Node's forgiving decoder). -/
def b64Sextets (cs : List Char) : List Nat := cs.filterMap b64IndexOfChar

/-- Reassemble bytes from sextets, four at a time; a trailing group of
three or two sextets yields two or one bytes, a lone leftover is dropped. -/
def b64DecodeSextets : List Nat → List Nat
  | s1 :: s2 :: s3 :: s4 :: rest =>
    (s1 * 4 + s2 / 16) :: (s2 % 16 * 16 + s3 / 4) :: (s3 % 4 * 64 + s4) ::
      b64DecodeSextets rest
  | [s1, s2, s3] => [s1 * 4 + s2 / 16, s2 % 16 * 16 + s3 / 4]
  | [s1, s2] => [s1 * 4 + s2 / 16]
  | _ => []

/-- `Buffer.from(token, 'base64')`. -/
def b64Decode (token : String) : List Nat :=
  b64DecodeSextets (b64Sextets token.data)

/-- `buffer.toString('base64')`. -/
def b64Encode (bytes : List Nat) : String := String.mk (b64EncodeBytes bytes)

/-! ## JSON model (`JSON.parse` / `JSON.stringify`)

Numbers carry integer part, fraction digits and exponent; re-rendering of
parsed non-integer numbers is structural rather than IEEE-double exact
(the service only ever builds objects of strings and integers).  Objects
keep fields in insertion order with duplicate keys collapsed in place,
matching JS property-assignment semantics. -/

inductive Json where
  | null
  | bool (b : Bool)
  | num (intPart : Int) (fracDigits : List Nat) (expPart : Int)
  | str (s : String)
  | arr (elems : List Json)
  | obj (fields : List (String × Json))
deriving Repr

/-- JSON whitespace. -/
def skipWs : List Char → List Char
  | [] => []
  | c :: rest =>
    if c = ' ' ∨ c.toNat = 9 ∨ c.toNat = 10 ∨ c.toNat = 13 then skipWs rest
    else c :: rest

def hexVal (ch : Char) : Option Nat :=
  if 48 ≤ ch.toNat ∧ ch.toNat ≤ 57 then some (ch.toNat - 48)
  else if 97 ≤ ch.toNat ∧ ch.toNat ≤ 102 then some (ch.toNat - 97 + 10)
  else if 65 ≤ ch.toNat ∧ ch.toNat ≤ 70 then some (ch.toNat - 65 + 10)
  else none

/-- One `\uXXXX` code unit: lone surrogates (invalid scalar values) become
U+FFFD; surrogate-pair combination is not modelled (`JSON.stringify` of
the payloads at issue never emits surrogate escapes). -/
def charOfCodeUnit (n : Nat) : Char :=
  if 0xD800 ≤ n ∧ n < 0xE000 then replChar else Char.ofNat n

/-- The single-character escapes of JSON. -/
def escCharMeaning (e : Char) : Option Char :=
  if e = '"' then some '"'
  else if e = '\\' then some '\\'
  else if e = '/' then some '/'
  else if e = 'b' then some (Char.ofNat 8)
  else if e = 'f' then some (Char.ofNat 12)
  else if e = 'n' then some (Char.ofNat 10)
  else if e = 'r' then some (Char.ofNat 13)
  else if e = 't' then some (Char.ofNat 9)
  else none

/-- Parse a JSON string body (after the opening quote), returning the
decoded characters and the input after the closing quote. -/
def parseStringBody : List Char → Option (List Char × List Char)
  | [] => none
  | c :: rest =>
    if c = '"' then some ([], rest)
    else if c = '\\' then
      match rest with
      | [] => none
      | e :: rest2 =>
        if e = 'u' then
          match rest2 with
          | h1 :: h2 :: h3 :: h4 :: rest3 =>
            match hexVal h1, hexVal h2, hexVal h3, hexVal h4 with
            | some x1, some x2, some x3, some x4 =>
              match parseStringBody rest3 with
              | some (s, r) =>
                some (charOfCodeUnit (x1 * 4096 + x2 * 256 + x3 * 16 + x4) :: s, r)
              | none => none
            | _, _, _, _ => none
          | _ => none
        else
          match escCharMeaning e with
          | some ch =>
            match parseStringBody rest2 with
            | some (s, r) => some (ch :: s, r)
            | none => none
          | none => none
    else if c.toNat < 0x20 then none
    else
      match parseStringBody rest with
      | some (s, r) => some (c :: s, r)
      | none => none

/-- Maximal run of decimal digits. -/
def parseDigits : List Char → List Nat × List Char
  | [] => ([], [])
  | c :: rest =>
    if 48 ≤ c.toNat ∧ c.toNat ≤ 57 then
      let p := parseDigits rest
      ((c.toNat - 48) :: p.1, p.2)
    else ([], c :: rest)

def digitsVal (ds : List Nat) : Nat := ds.foldl (fun acc d => acc * 10 + d) 0

/-- Optional exponent part (`e`/`E`, optional sign, digits). -/
def parseExp (l : List Char) : Option (Int × List Char) :=
  match l with
  | c :: rest =>
    if c = 'e' ∨ c = 'E' then
      match rest with
      | s :: rest2 =>
        if s = '+' then
          match parseDigits rest2 with
          | ([], _) => none
          | (ds, r) => some ((digitsVal ds : Int), r)
        else if s = '-' then
          match parseDigits rest2 with
          | ([], _) => none
          | (ds, r) => some (-(digitsVal ds : Int), r)
        else
          match parseDigits rest with
          | ([], _) => none
          | (ds, r) => some ((digitsVal ds : Int), r)
      | [] => none
    else some (0, l)
  | [] => some (0, [])

/-- Digits, optional fraction, optional exponent (sign handled by caller).
Laxer than strict JSON only in admitting redundant leading zeros. -/
def parseNumberBody (l : List Char) : Option ((Nat × List Nat × Int) × List Char) :=
  match parseDigits l with
  | ([], _) => none
  | (ds, rest) =>
    match rest with
    | c :: rest2 =>
      if c = '.' then
        match parseDigits rest2 with
        | ([], _) => none
        | (fs, rest3) =>
          match parseExp rest3 with
          | some (ex, r) => some ((digitsVal ds, fs, ex), r)
          | none => none
      else
        match parseExp (c :: rest2) with
        | some (ex, r) => some ((digitsVal ds, [], ex), r)
        | none => none
    | [] => some ((digitsVal ds, [], 0), [])

mutual

/-- Recursive-descent JSON value parser; the fuel bounds nesting and
sequence length and is instantiated with the input length at top level. -/
def parseValue : Nat → List Char → Option (Json × List Char)
  | 0, _ => none
  | fuel + 1, l =>
    match skipWs l with
    | [] => none
    | c :: rest =>
      if c = '"' then
        match parseStringBody rest with
        | some (s, r) => some (.str (String.mk s), r)
        | none => none
      else if c = 't' then
        match rest with
        | 'r' :: 'u' :: 'e' :: r => some (.bool true, r)
        | _ => none
      else if c = 'f' then
        match rest with
        | 'a' :: 'l' :: 's' :: 'e' :: r => some (.bool false, r)
        | _ => none
      else if c = 'n' then
        match rest with
        | 'u' :: 'l' :: 'l' :: r => some (.null, r)
        | _ => none
      else if c.toNat = 123 then parseObjBody fuel rest
      else if c = '[' then parseArrBody fuel rest
      else if c = '-' then
        match parseNumberBody rest with
        | some (p, r) => some (.num (-(p.1 : Int)) p.2.1 p.2.2, r)
        | none => none
      else
        match parseNumberBody (c :: rest) with
        | some (p, r) => some (.num (p.1 : Int) p.2.1 p.2.2, r)
        | none => none

/-- After the opening brace: empty object or first key. -/
def parseObjBody : Nat → List Char → Option (Json × List Char)
  | 0, _ => none
  | fuel + 1, l =>
    match skipWs l with
    | c :: rest =>
      if c.toNat = 125 then some (.obj [], rest)
      else if c = '"' then
        match parseStringBody rest with
        | some (k, r1) => parseMembersAfterKey fuel (String.mk k) r1 []
        | none => none
      else none
    | [] => none

/-- After a member key: parse `: value`, then either `, "key"` (continue)
or the closing brace.  Duplicate keys overwrite in place (`mapSet`). -/
def parseMembersAfterKey :
    Nat → String → List Char → List (String × Json) → Option (Json × List Char)
  | 0, _, _, _ => none
  | fuel + 1, key, l, acc =>
    match skipWs l with
    | c :: r2 =>
      if c = ':' then
        match parseValue fuel r2 with
        | some (v, r3) =>
          match skipWs r3 with
          | c2 :: r4 =>
            if c2 = ',' then
              match skipWs r4 with
              | c3 :: r5 =>
                if c3 = '"' then
                  match parseStringBody r5 with
                  | some (k2, r6) =>
                    parseMembersAfterKey fuel (String.mk k2) r6 (mapSet acc key v)
                  | none => none
                else none
              | [] => none
            else if c2.toNat = 125 then some (.obj (mapSet acc key v), r4)
            else none
          | [] => none
        | none => none
      else none
    | [] => none

/-- After the opening bracket: empty array or first element. -/
def parseArrBody : Nat → List Char → Option (Json × List Char)
  | 0, _ => none
  | fuel + 1, l =>
    match skipWs l with
    | c :: rest =>
      if c = ']' then some (.arr [], rest)
      else parseElems fuel (c :: rest) []
    | [] => none

def parseElems : Nat → List Char → List Json → Option (Json × List Char)
  | 0, _, _ => none
  | fuel + 1, l, acc =>
    match parseValue fuel l with
    | some (v, r) =>
      match skipWs r with
      | c :: r2 =>
        if c = ',' then parseElems fuel r2 (acc ++ [v])
        else if c = ']' then some (.arr (acc ++ [v]), r2)
        else none
      | [] => none
    | none => none

end

/-- `JSON.parse`: a full-input value parse (trailing whitespace allowed). -/
def jsonParse (s : String) : Option Json :=
  match parseValue (s.data.length + 1) s.data with
  | some (j, r) =>
    match skipWs r with
    | [] => some j
    | _ => none
  | none => none

/-! ### `JSON.stringify` -/

def hexDigitChar (n : Nat) : Char :=
  if n < 10 then Char.ofNat (48 + n) else Char.ofNat (97 + n - 10)

/-- String-character escaping of `JSON.stringify`. -/
def escapeChar (c : Char) : List Char :=
  if c = '"' then ['\\', '"']
  else if c = '\\' then ['\\', '\\']
  else if c.toNat = 8 then ['\\', 'b']
  else if c.toNat = 9 then ['\\', 't']
  else if c.toNat = 10 then ['\\', 'n']
  else if c.toNat = 12 then ['\\', 'f']
  else if c.toNat = 13 then ['\\', 'r']
  else if c.toNat < 32 then
    '\\' :: 'u' :: '0' :: '0' ::
      hexDigitChar (c.toNat / 16) :: [hexDigitChar (c.toNat % 16)]
  else [c]

def quoteString (s : String) : List Char :=
  '"' :: (s.data.map escapeChar).flatten ++ ['"']

def intChars (i : Int) : List Char :=
  if i < 0 then '-' :: Nat.toDigits 10 i.natAbs else Nat.toDigits 10 i.toNat

mutual

def jsonStringify : Json → List Char
  | .null => "null".data
  | .bool true => "true".data
  | .bool false => "false".data
  | .num i fs ex =>
    intChars i ++
      (if fs.isEmpty then [] else '.' :: fs.map (fun d => Char.ofNat (48 + d))) ++
      (if ex = 0 then [] else 'e' :: intChars ex)
  | .str s => quoteString s
  | .arr xs => '[' :: stringifyElems xs ++ [']']
  | .obj fs => Char.ofNat 123 :: stringifyFields fs ++ [Char.ofNat 125]

def stringifyElems : List Json → List Char
  | [] => []
  | [x] => jsonStringify x
  | x :: y :: rest => jsonStringify x ++ ',' :: stringifyElems (y :: rest)

def stringifyFields : List (String × Json) → List Char
  | [] => []
  | [(k, v)] => quoteString k ++ ':' :: jsonStringify v
  | (k, v) :: f :: rest =>
    quoteString k ++ ':' :: jsonStringify v ++ ',' :: stringifyFields (f :: rest)

end

/-! ## Cursor codec and cache key (`src/services/myListService.ts`) -/

/-- `HttpError` (`src/middleware/errorHandler.ts`). -/
structure HttpError where
  message : String
  statusCode : Nat
  errorCode : String
deriving Repr, DecidableEq

/-- The error thrown by `decodeCursor`. -/
def invalidCursorError : HttpError :=
  { message := "Invalid cursor provided", statusCode := 400,
    errorCode := "invalid_cursor" }

/-- `CursorPayload` (typed view used by `encodeCursor`). -/
structure CursorPayload where
  addedAt : String
  contentId : String
deriving Repr, DecidableEq

/-- The object literal `{ addedAt, contentId }` serialized by `encodeCursor`
(fields in literal order). -/
def payloadJson (cursor : CursorPayload) : Json :=
  .obj [("addedAt", .str cursor.addedAt), ("contentId", .str cursor.contentId)]

/-- `encodeCursor`:
`Buffer.from(JSON.stringify(cursor), 'utf8').toString('base64')`. -/
def encodeCursor (cursor : CursorPayload) : String :=
  b64Encode (utf8Encode (jsonStringify (payloadJson cursor)))

/-- JS truthiness of `parsed.field` (`undefined` is `none`). -/
def jsTruthy : Option Json → Bool
  | none => false
  | some .null => false
  | some (.bool b) => b
  | some (.str s) => s ≠ ""
  | some (.num i fs _) => ¬(i = 0 ∧ fs.all (· = 0))
  | some (.arr _) => true
  | some (.obj _) => true

/-- JS property access `j.key`: a field of an object, `undefined`
otherwise.  (`null.key` actually throws a `TypeError`, but inside
`decodeCursor`'s `try` both roads end in the same `invalid_cursor`
rejection, so `undefined` is outcome-identical.) -/
def jsGetField (j : Json) (key : String) : Option Json :=
  match j with
  | .obj fields => mapGet fields key
  | _ => none

/-- `decodeCursor`: base64-decode, UTF-8 decode, `JSON.parse`, then the
strictness check `!parsed.addedAt || !parsed.contentId`; every failure is
mapped (via the surrounding `try`/`catch`) to `invalid_cursor`.  Returns
the raw parsed value — the code's `as CursorPayload` is only a cast. -/
def decodeCursor (rawCursor : String) : Except HttpError Json :=
  match jsonParse (String.mk (utf8Decode (b64Decode rawCursor))) with
  | none => .error invalidCursorError
  | some parsed =>
    if jsTruthy (jsGetField parsed "addedAt") &&
        jsTruthy (jsGetField parsed "contentId") then
      .ok parsed
    else .error invalidCursorError

/-- `ListOptions`: the parsed request options handed to `listMyList`.  The
`cursor` is the raw value produced by `decodeCursor` (the controller passes
it through unchanged). -/
structure ListOptions where
  limit : Int
  cursor : Option Json
deriving Repr

/-- `cacheKey`: `JSON.stringify({ userId, limit, cursor })`; an absent
(`undefined`) cursor field is dropped by `JSON.stringify`. -/
def cacheKey (userId : String) (options : ListOptions) : String :=
  String.mk (jsonStringify (Json.obj
    ([("userId", .str userId), ("limit", .num options.limit [] 0)] ++
      match options.cursor with
      | some c => [("cursor", c)]
      | none => [])))

/-! ## Service model (`src/services/myListService.ts`)

`addedAt` timestamps are modelled by their canonical ISO-8601 renderings:
on those fixed-format strings JS `Date` ordering and equality coincide
with lexicographic string ordering and equality, `Date.prototype.toISOString`
and `new Date(isoString)` are mutually inverse, and MongoDB compares stored
`Date`s the same way, so the string is a faithful stand-in for the
timestamp everywhere the service touches it. -/

inductive ListableContentKind where
  | Movie
  | TVShow
deriving Repr, DecidableEq

/-- A stored `MyListItem` document (`src/models/MyListItem.ts`). -/
structure MyListItem where
  userId : String
  contentId : String
  contentType : ListableContentKind
  title : String
  genres : List String
  addedAt : String
deriving Repr, DecidableEq

/-- The public DTO shape (`toDTO` and the projection in `listMyList`). -/
structure MyListItemDTO where
  userId : String
  contentId : String
  contentType : ListableContentKind
  title : String
  genres : List String
  addedAt : String
deriving Repr, DecidableEq

def MyListItem.toDTO (item : MyListItem) : MyListItemDTO :=
  { userId := item.userId, contentId := item.contentId,
    contentType := item.contentType, title := item.title,
    genres := item.genres, addedAt := item.addedAt }

/-- A catalogue document (`MovieModel` / `TVShowModel`). -/
structure CatalogueEntry where
  id : String
  title : String
  genres : List String
deriving Repr, DecidableEq

structure Catalogue where
  movies : List CatalogueEntry
  shows : List CatalogueEntry
deriving Repr, DecidableEq

/-- Errors escaping the service: an `HttpError`, or an unexpected
(logged and re-thrown) persistence failure. -/
inductive ServiceError where
  | http (e : HttpError)
  | internal
deriving Repr, DecidableEq

/-- `resolveContentMetadata`. -/
def resolveContentMetadata (cat : Catalogue) (contentId : String)
    (contentType : ListableContentKind) :
    Except HttpError (String × List String) :=
  match contentType with
  | .Movie =>
    match cat.movies.find? (fun m => m.id = contentId) with
    | none =>
      .error { message := "Movie " ++ contentId ++ " not found",
               statusCode := 404, errorCode := "movie_not_found" }
    | some movie => .ok (movie.title, movie.genres)
  | .TVShow =>
    match cat.shows.find? (fun sh => sh.id = contentId) with
    | none =>
      .error { message := "TV show " ++ contentId ++ " not found",
               statusCode := 404, errorCode := "show_not_found" }
    | some sh => .ok (sh.title, sh.genres)

/-- A cached page (`ListCacheValue`). -/
structure ListResult where
  items : List MyListItemDTO
  nextCursor : Option String
deriving Repr, DecidableEq

/-- `addToMyList`, threading the document store and the cache through so
the effect (or absence of effect) of every path is visible.  `createFails`
injects an unexpected persistence error at the `create` call (caught,
logged and re-thrown without invalidation); a duplicate `(userId,
contentId)` pair is the store's unique-constraint violation. -/
def addToMyList (cat : Catalogue) (db : List MyListItem)
    (cache : InMemoryCache ListResult) (nowIso : String) (createFails : Bool)
    (userId contentId : String) (contentType : ListableContentKind) :
    Except ServiceError MyListItemDTO × List MyListItem × InMemoryCache ListResult :=
  match resolveContentMetadata cat contentId contentType with
  | .error e => (.error (.http e), db, cache)
  | .ok meta =>
    if createFails then (.error .internal, db, cache)
    else if (db.find? (fun it => it.userId = userId && it.contentId = contentId)).isSome then
      (.error (.http
        { message := "Content " ++ contentId ++ " already exists in the user's list",
          statusCode := 409, errorCode := "already_in_list" }), db, cache)
    else
      let created : MyListItem :=
        { userId := userId, contentId := contentId, contentType := contentType,
          title := meta.1, genres := meta.2, addedAt := nowIso }
      (.ok created.toDTO, db ++ [created], cache.clear)

/-- `removeFromMyList` (`deleteOne` removes the first matching document;
the unique index makes it the only one). -/
def removeFromMyList (db : List MyListItem) (cache : InMemoryCache ListResult)
    (userId contentId : String) :
    Except ServiceError Unit × List MyListItem × InMemoryCache ListResult :=
  match db.find? (fun it => it.userId = userId && it.contentId = contentId) with
  | none =>
    (.error (.http
      { message := "Content " ++ contentId ++ " is not in the user's list",
        statusCode := 404, errorCode := "not_in_list" }), db, cache)
  | some _ =>
    (.ok (),
      db.eraseP (fun it => it.userId = userId && it.contentId = contentId),
      cache.clear)

/-! ### The list query planner -/

/-- String field of the decoded cursor object for the query bounds.
Truthy non-string members (forged cursors only) yield `none`, modelling
the `new Date(x)` Invalid-Date comparisons that match no document. -/
def jsonFieldString (c : Json) (key : String) : Option String :=
  match jsGetField c key with
  | some (.str s) => some s
  | _ => none

/-- The `$or` cursor bound:
`addedAt < cursor.addedAt OR (addedAt = cursor.addedAt AND contentId < cursor.contentId)`. -/
def matchesCursor (cursor : Json) (item : MyListItem) : Bool :=
  match jsonFieldString cursor "addedAt", jsonFieldString cursor "contentId" with
  | some ca, some cc =>
    item.addedAt < ca ∨ (item.addedAt = ca ∧ item.contentId < cc)
  | _, _ => false

/-- The find filter: `{ userId }` plus the optional cursor bound. -/
def queryFilter (userId : String) (cursor : Option Json) (item : MyListItem) : Bool :=
  item.userId = userId &&
    (match cursor with
     | none => true
     | some c => matchesCursor c item)

/-- `.sort({ addedAt: -1, contentId: -1 })`: descending lexicographic
order on `(addedAt, contentId)`. -/
def pageLE (x y : MyListItem) : Prop :=
  y.addedAt < x.addedAt ∨ (y.addedAt = x.addedAt ∧ y.contentId ≤ x.contentId)

instance : DecidableRel pageLE := fun x y => by
  unfold pageLE
  infer_instance

/-- The sorted, cursor-bounded, limit+1-bounded fetch plus next-cursor
computation of `listMyList` (its pure part, bypassing the cache). -/
def planPage (db : List MyListItem) (userId : String) (options : ListOptions) :
    ListResult :=
  let query := (db.filter (queryFilter userId options.cursor)).insertionSort pageLE
  let items := query.take (options.limit + 1).toNat
  let hasMore : Bool := (items.length : Int) > options.limit
  let trimmed := if hasMore then items.take options.limit.toNat else items
  let dtos := trimmed.map MyListItem.toDTO
  let nextCursor : Option String :=
    if hasMore then
      match trimmed.getLast? with
      | some last => some (encodeCursor ⟨last.addedAt, last.contentId⟩)
      | none => none
    else none
  { items := dtos, nextCursor := nextCursor }

/-- `listMyList`: cache lookup, on miss compute the page and populate the
cache under the same key. -/
def listMyList (db : List MyListItem) (cache : InMemoryCache ListResult)
    (now : Nat) (userId : String) (options : ListOptions) :
    ListResult × InMemoryCache ListResult :=
  let key := cacheKey userId options
  match cache.get now key with
  | (some value, cache1) => (value, cache1)
  | (none, cache1) =>
    let result := planPage db userId options
    (result, cache1.set now key result)

/-! ## Controller and error middleware
(`src/controllers/myListController.ts`, `src/middleware/errorHandler.ts`) -/

def isDigit (c : Char) : Bool := 48 ≤ c.toNat && c.toNat ≤ 57

/-- `Number(s)` on a query-string value; `none` models `NaN`.  Exotic
numeric literals (fractions, exponents, hex, whitespace) are out of the
integer range the schema accepts and are conflated with `NaN`. -/
def jsNumberOfString (s : String) : Option Int :=
  if s = "" then some 0
  else
    match s.data with
    | '-' :: ds =>
      if !ds.isEmpty && ds.all isDigit then
        some (-(digitsVal (ds.map (fun c => c.toNat - 48)) : Int))
      else none
    | ds =>
      if !ds.isEmpty && ds.all isDigit then
        some ((digitsVal (ds.map (fun c => c.toNat - 48)) : Int))
      else none

/-- The `limit` leg of `listQuerySchema`:
`z.string().optional().transform(v => Number(v ?? 20)).refine(v =>
Number.isInteger(v) && v > 0 && v <= 100)`.  A failing refine makes
`parse` throw a `ZodError`. -/
def parseLimitParam (value : Option String) : Except String Int :=
  match (match value with
         | none => some (20 : Int)
         | some s => jsNumberOfString s) with
  | none => .error "limit is invalid"
  | some v =>
    if 0 < v ∧ v ≤ 100 then .ok v
    else .error "limit is invalid"

/-- `userIdParamSchema`: `z.string().min(1)`. -/
def parseUserIdParam (userId : String) : Except String String :=
  if userId = "" then .error "userId is required" else .ok userId

/-- What the error middleware distinguishes: `HttpError` versus anything
else (`ZodError` included). -/
inductive ThrownError where
  | zodError (message : String)
  | httpError (e : HttpError)
deriving Repr, DecidableEq

/-- The `(status, error.code)` pair of the JSON error response. -/
structure ErrorBody where
  status : Nat
  code : String
deriving Repr, DecidableEq

/-- `errorHandler`: `HttpError`s keep their status and machine code;
every other thrown value becomes `500 internal_error`. -/
def errorHandler : ThrownError → ErrorBody
  | .httpError e => { status := e.statusCode, code := e.errorCode }
  | .zodError _ => { status := 500, code := "internal_error" }

def limitTooLargeError : HttpError :=
  { message := "limit exceeds maximum of 100", statusCode := 400,
    errorCode := "limit_too_large" }

/-- `handleListMyItems` up to the service call: parameter parsing, cursor
decoding (`query.cursor ?` is falsy for the empty string), the in-handler
`limit > 100` guard, then `listMyList`. -/
def handleListMyItems (db : List MyListItem) (cache : InMemoryCache ListResult)
    (now : Nat) (userId : String) (limitParam cursorParam : Option String) :
    Except ThrownError (ListResult × InMemoryCache ListResult) :=
  match parseUserIdParam userId with
  | .error m => .error (.zodError m)
  | .ok uid =>
    match parseLimitParam limitParam with
    | .error m => .error (.zodError m)
    | .ok limit =>
      match (match cursorParam with
             | some cur =>
               if cur = "" then .ok none
               else
                 match decodeCursor cur with
                 | .error e => .error e
                 | .ok cjson => .ok (some cjson)
             | none => .ok none : Except HttpError (Option Json)) with
      | .error e => .error (.httpError e)
      | .ok cursorOpt =>
        if limit > 100 then .error (.httpError limitTooLargeError)
        else .ok (listMyList db cache now uid ⟨limit, cursorOpt⟩)

/-- An HTTP response of the list endpoint. -/
inductive HttpResponse where
  | ok (status : Nat) (result : ListResult)
  | err (body : ErrorBody)
deriving Repr, DecidableEq

/-- The list endpoint as seen by the client: handler result or the error
middleware's rendering of what was thrown. -/
def listEndpoint (db : List MyListItem) (cache : InMemoryCache ListResult)
    (now : Nat) (userId : String) (limitParam cursorParam : Option String) :
    HttpResponse :=
  match handleListMyItems db cache now userId limitParam cursorParam with
  | .ok (result, _) => .ok 200 result
  | .error e => .err (errorHandler e)

/-! ## Pagination (C1): driving the List endpoint through its cursors -/

/-- The strict `$or` bound as a relation on stored items: `y` comes after
`x` in the descending `(addedAt, contentId)` order. -/
def cursorLT (y x : MyListItem) : Prop :=
  y.addedAt < x.addedAt ∨ (y.addedAt = x.addedAt ∧ y.contentId < x.contentId)

instance : DecidableRel cursorLT := fun y x => by
  unfold cursorLT
  infer_instance

/-- Repeated List calls: each step hits the endpoint (with a cold cache),
decodes the returned `nextCursor` exactly as the controller does, and
feeds the decoded object back in.  Returns `some` of the concatenated
items only when a page finally arrives without a `nextCursor`; running out
of fuel or failing to decode a returned token gives `none`. -/
def drivePages (db : List MyListItem) (copts : CacheOptions) (now : Nat)
    (userId : String) (limit : Int) :
    Nat → Option Json → Option (List MyListItemDTO)
  | 0, _ => none
  | fuel + 1, cursor =>
    let r := (listMyList db (InMemoryCache.empty ListResult copts) now userId
      { limit := limit, cursor := cursor }).1
    match r.nextCursor with
    | none => some r.items
    | some tok =>
      match decodeCursor tok with
      | .error _ => none
      | .ok c =>
        match drivePages db copts now userId limit fuel (some c) with
        | none => none
        | some rest => some (r.items ++ rest)

instance : IsTotal MyListItem pageLE := ⟨by
  intro x y
  unfold pageLE
  rcases lt_trichotomy x.addedAt y.addedAt with h | h | h
  · exact Or.inr (Or.inl h)
  · rcases le_total y.contentId x.contentId with hc | hc
    · exact Or.inl (Or.inr ⟨h.symm, hc⟩)
    · exact Or.inr (Or.inr ⟨h, hc⟩)
  · exact Or.inl (Or.inl h)⟩

instance : IsTrans MyListItem pageLE := ⟨by
  intro x y z hxy hyz
  unfold pageLE at *
  rcases hxy with h1 | ⟨h1, h1c⟩ <;> rcases hyz with h2 | ⟨h2, h2c⟩
  · exact Or.inl (h2.trans h1)
  · exact Or.inl (h2 ▸ h1)
  · exact Or.inl (h1 ▸ h2)
  · exact Or.inr ⟨h2.trans h1, h2c.trans h1c⟩⟩


namespace JsMap

/-! ### Association-list lemmas for the JS `Map` model -/

theorem mapGet_mapSet_self {V : Type} (store : List (String × V)) (key : String)
    (value : V) : mapGet (mapSet store key value) key = some value := by
  induction store with
  | nil => simp [mapGet, mapSet]
  | cons hd tl ih =>
    obtain ⟨k, v⟩ := hd
    by_cases hk : k = key
    · simp [mapGet, mapSet, hk]
    · simp [mapGet, mapSet, hk, ih]

theorem mapGet_mapSet_ne {V : Type} (store : List (String × V)) (key key' : String)
    (value : V) (h : key ≠ key') :
    mapGet (mapSet store key value) key' = mapGet store key' := by
  induction store with
  | nil => simp [mapGet, mapSet, h]
  | cons hd tl ih =>
    obtain ⟨k, v⟩ := hd
    by_cases hk : k = key
    · subst hk
      simp [mapGet, mapSet, h]
    · simp [mapGet, mapSet, hk, ih]

theorem mapSet_fresh {V : Type} (store : List (String × V)) (key : String)
    (value : V) (h : mapGet store key = none) :
    mapSet store key value = store ++ [(key, value)] := by
  induction store with
  | nil => simp [mapSet]
  | cons hd tl ih =>
    obtain ⟨k, v⟩ := hd
    by_cases hk : k = key
    · simp [mapGet, hk] at h
    · simp [mapGet, hk] at h
      simp [mapSet, hk, ih h]

theorem length_mapSet_present {V : Type} (store : List (String × V)) (key : String)
    (value : V) (h : (mapGet store key).isSome) :
    (mapSet store key value).length = store.length := by
  induction store with
  | nil => simp [mapGet] at h
  | cons hd tl ih =>
    obtain ⟨k, v⟩ := hd
    by_cases hk : k = key
    · simp [mapSet, hk]
    · simp [mapGet, hk] at h
      simp [mapSet, hk, ih h]

theorem length_mapSet_le {V : Type} (store : List (String × V)) (key : String)
    (value : V) : (mapSet store key value).length ≤ store.length + 1 := by
  induction store with
  | nil => simp [mapSet]
  | cons hd tl ih =>
    obtain ⟨k, v⟩ := hd
    by_cases hk : k = key
    · simp [mapSet, hk]
    · simp only [mapSet, hk, if_false, List.length_cons]
      omega

theorem length_mapDelete_le {V : Type} (store : List (String × V)) (key : String) :
    (mapDelete store key).length ≤ store.length := by
  induction store with
  | nil => simp [mapDelete]
  | cons hd tl ih =>
    obtain ⟨k, v⟩ := hd
    by_cases hk : k = key
    · simp [mapDelete, hk]
    · simp only [mapDelete, hk, if_false, List.length_cons]
      omega

theorem length_mapDelete_present {V : Type} (store : List (String × V)) (key : String)
    (h : (mapGet store key).isSome) :
    (mapDelete store key).length + 1 = store.length := by
  induction store with
  | nil => simp [mapGet] at h
  | cons hd tl ih =>
    obtain ⟨k, v⟩ := hd
    by_cases hk : k = key
    · simp [mapDelete, hk]
    · simp [mapGet, hk] at h
      have := ih h
      simp only [mapDelete, hk, if_false, List.length_cons]
      omega

theorem mapGet_append_right {V : Type} (s t : List (String × V)) (key : String)
    (h : mapGet s key = none) : mapGet (s ++ t) key = mapGet t key := by
  induction s with
  | nil => simp
  | cons hd tl ih =>
    obtain ⟨k, v⟩ := hd
    by_cases hk : k = key
    · simp [mapGet, hk] at h
    · simp [mapGet, hk] at h ⊢
      exact ih h

theorem mapGet_append_left {V : Type} (s t : List (String × V)) (key : String)
    (h : (mapGet s key).isSome) : mapGet (s ++ t) key = mapGet s key := by
  induction s with
  | nil => simp [mapGet] at h
  | cons hd tl ih =>
    obtain ⟨k, v⟩ := hd
    by_cases hk : k = key
    · simp [mapGet, hk]
    · simp [mapGet, hk] at h ⊢
      exact ih h

theorem mapGet_eq_none_of_not_mem {V : Type} (store : List (String × V))
    (key : String) : key ∉ store.map Prod.fst → mapGet store key = none := by
  induction store with
  | nil => intro _; simp [mapGet]
  | cons hd tl ih =>
    obtain ⟨k, v⟩ := hd
    intro h
    simp only [List.map_cons, List.mem_cons] at h
    push_neg at h
    have hk : k ≠ key := fun e => h.1 e.symm
    simp [mapGet, hk, ih h.2]

theorem mapGet_isSome_of_mem {V : Type} (store : List (String × V))
    (key : String) : key ∈ store.map Prod.fst → (mapGet store key).isSome := by
  induction store with
  | nil => intro h; simp at h
  | cons hd tl ih =>
    obtain ⟨k, v⟩ := hd
    intro h
    by_cases hk : k = key
    · simp [mapGet, hk]
    · simp only [List.map_cons, List.mem_cons] at h
      rcases h with h | h
      · exact absurd h.symm hk
      · simp only [mapGet, hk, if_false]
        exact ih h

end JsMap

namespace InMemoryCache

theorem set_eq_enforce {V : Type} (c : InMemoryCache V) (now : Nat) (key : String)
    (value : V) :
    c.set now key value =
      enforceMaxItems
        { c with
          accessCounter := c.accessCounter + 1,
          store := mapSet c.store key
            { value := value, expiresAt := expiryStamp c.options.ttlSeconds now,
              lastAccessCounter := c.accessCounter + 1 } } := by
  rfl

theorem enforceMaxItems_of_le {V : Type} (c : InMemoryCache V)
    (h : c.store.length ≤ c.options.maxItems) : enforceMaxItems c = c := by
  unfold enforceMaxItems
  simp [h]

/-- `set` into a cache with spare capacity performs no eviction. -/
theorem set_of_room {V : Type} (c : InMemoryCache V) (now : Nat) (key : String)
    (value : V) (h : c.store.length < c.options.maxItems) :
    c.set now key value =
      { c with
        accessCounter := c.accessCounter + 1,
        store := mapSet c.store key
          { value := value, expiresAt := expiryStamp c.options.ttlSeconds now,
            lastAccessCounter := c.accessCounter + 1 } } := by
  rw [set_eq_enforce]
  apply enforceMaxItems_of_le
  have := length_mapSet_le c.store key
    ({ value := value, expiresAt := expiryStamp c.options.ttlSeconds now,
       lastAccessCounter := c.accessCounter + 1 } : CacheEntry V)
  simpa using Nat.le_trans this h

theorem lruFold_of_acc_min {V : Type} (l : List (String × CacheEntry V))
    (bk : String) (bc : Nat)
    (h : ∀ p ∈ l, bc ≤ p.2.lastAccessCounter) :
    lruFold (some (bk, bc)) l = some (bk, bc) := by
  induction l with
  | nil => rfl
  | cons hd tl ih =>
    obtain ⟨k, e⟩ := hd
    have hhd := h (k, e) (by simp)
    simp only [lruFold, Nat.not_lt.mpr hhd, if_false]
    exact ih fun p hp => h p (by simp [hp])

/-- When the first entry carries the (weakly) least counter, the LRU scan picks it. -/
theorem lruFold_first_min {V : Type} (k : String) (e : CacheEntry V)
    (rest : List (String × CacheEntry V))
    (h : ∀ p ∈ rest, e.lastAccessCounter ≤ p.2.lastAccessCounter) :
    lruFold none ((k, e) :: rest) = some (k, e.lastAccessCounter) := by
  simp only [lruFold]
  exact lruFold_of_acc_min rest k e.lastAccessCounter h

theorem lruFold_mem {V : Type} (l : List (String × CacheEntry V)) :
    ∀ acc k c, lruFold acc l = some (k, c) →
      (∃ e, (k, e) ∈ l ∧ e.lastAccessCounter = c) ∨ acc = some (k, c) := by
  induction l with
  | nil => intro acc k c h; exact Or.inr h
  | cons hd tl ih =>
    intro acc k c h
    obtain ⟨hk, he⟩ := hd
    simp only [lruFold] at h
    rcases ih _ k c h with ⟨e, hmem, hc⟩ | hacc
    · exact Or.inl ⟨e, by simp [hmem], hc⟩
    · rcases acc with _ | ⟨bk, bc⟩
      · simp only [Option.some.injEq, Prod.mk.injEq] at hacc
        exact Or.inl ⟨he, by simp [hacc.1], hacc.2⟩
      · by_cases hlt : he.lastAccessCounter < bc
        · simp only [hlt, if_true, Option.some.injEq, Prod.mk.injEq] at hacc
          exact Or.inl ⟨he, by simp [hacc.1], hacc.2⟩
        · simp only [hlt, if_false, Option.some.injEq, Prod.mk.injEq] at hacc
          exact Or.inr (by simp [hacc.1, hacc.2])

theorem lruFold_min {V : Type} (l : List (String × CacheEntry V)) :
    ∀ acc k c, lruFold acc l = some (k, c) →
      (∀ p ∈ l, c ≤ p.2.lastAccessCounter) ∧
        (∀ bk bc, acc = some (bk, bc) → c ≤ bc) := by
  induction l with
  | nil =>
    intro acc k c h
    refine ⟨by simp, fun bk bc hacc => ?_⟩
    rw [hacc] at h
    simp only [lruFold, Option.some.injEq, Prod.mk.injEq] at h
    omega
  | cons hd tl ih =>
    intro acc k c h
    obtain ⟨hk, he⟩ := hd
    simp only [lruFold] at h
    rcases acc with _ | ⟨bk, bc⟩
    · have hih := ih _ k c h
      refine ⟨?_, by simp⟩
      intro p hp
      rcases List.mem_cons.mp hp with rfl | hp
      · exact hih.2 hk he.lastAccessCounter rfl
      · exact hih.1 p hp
    · by_cases hlt : he.lastAccessCounter < bc
      · simp only [hlt, if_true] at h
        have hih := ih _ k c h
        refine ⟨?_, fun bk2 bc2 hacc => ?_⟩
        · intro p hp
          rcases List.mem_cons.mp hp with rfl | hp
          · exact hih.2 hk he.lastAccessCounter rfl
          · exact hih.1 p hp
        · cases hacc
          have := hih.2 hk he.lastAccessCounter rfl
          omega
      · simp only [hlt, if_false] at h
        have hih := ih _ k c h
        refine ⟨?_, fun bk2 bc2 hacc => ?_⟩
        · intro p hp
          rcases List.mem_cons.mp hp with rfl | hp
          · have := hih.2 bk bc rfl
            simp only
            omega
          · exact hih.1 p hp
        · cases hacc
          exact hih.2 bk bc rfl

theorem lruFold_isSome {V : Type} (l : List (String × CacheEntry V)) :
    ∀ acc, acc.isSome → (lruFold acc l).isSome := by
  induction l with
  | nil => intro acc h; exact h
  | cons hd tl ih =>
    intro acc h
    obtain ⟨hk, he⟩ := hd
    simp only [lruFold]
    apply ih
    match acc with
    | none => simp
    | some (bk, bc) =>
      by_cases hlt : he.lastAccessCounter < bc <;> simp [hlt]

theorem lruFold_cons_isSome {V : Type} (hd : String × CacheEntry V)
    (tl : List (String × CacheEntry V)) : (lruFold none (hd :: tl)).isSome := by
  obtain ⟨hk, he⟩ := hd
  simp only [lruFold]
  exact lruFold_isSome tl _ (by simp)

/-- Size bound restored by a single eviction. -/
theorem enforceMaxItems_length {V : Type} (c : InMemoryCache V)
    (h : c.store.length ≤ c.options.maxItems + 1) :
    (enforceMaxItems c).store.length ≤ c.options.maxItems := by
  unfold enforceMaxItems
  by_cases hle : c.store.length ≤ c.options.maxItems
  · simp [hle]
  · simp only [hle, if_false]
    match hst : c.store with
    | [] => simp [hst] at hle
    | hd :: tl =>
      have hsome := lruFold_cons_isSome hd tl
      match hfold : lruFold none (hd :: tl) with
      | none => simp [hfold] at hsome
      | some (lruKey, cmin) =>
        simp only
        rcases lruFold_mem (hd :: tl) none lruKey cmin hfold with ⟨e, hmem, _⟩ | habs
        · have hkey : lruKey ∈ (hd :: tl).map Prod.fst :=
            List.mem_map.mpr ⟨(lruKey, e), hmem, rfl⟩
          have := mapGet_isSome_of_mem (hd :: tl) lruKey hkey
          have hlen := length_mapDelete_present (hd :: tl) lruKey this
          rw [hst] at hle h
          omega
        · simp at habs

end InMemoryCache

namespace JsMap

theorem mem_keys_mapSet {V : Type} (store : List (String × V)) (key key' : String)
    (value : V) :
    key' ∈ (mapSet store key value).map Prod.fst →
      key' ∈ store.map Prod.fst ∨ key' = key := by
  induction store with
  | nil =>
    intro h
    simp only [mapSet, List.map_cons, List.map_nil, List.mem_singleton] at h
    exact Or.inr h
  | cons hd tl ih =>
    obtain ⟨k, v⟩ := hd
    intro h
    by_cases hk : k = key
    · simp only [mapSet, if_pos hk, List.map_cons, List.mem_cons] at h
      rcases h with h | h
      · exact Or.inl (List.mem_cons.mpr (Or.inl h))
      · exact Or.inl (List.mem_cons.mpr (Or.inr h))
    · simp only [mapSet, if_neg hk, List.map_cons, List.mem_cons] at h
      rcases h with h | h
      · exact Or.inl (List.mem_cons.mpr (Or.inl h))
      · rcases ih h with h2 | h2
        · exact Or.inl (List.mem_cons.mpr (Or.inr h2))
        · exact Or.inr h2

theorem nodup_keys_mapSet {V : Type} (store : List (String × V)) (key : String)
    (value : V) (h : (store.map Prod.fst).Nodup) :
    ((mapSet store key value).map Prod.fst).Nodup := by
  induction store with
  | nil => simp [mapSet]
  | cons hd tl ih =>
    obtain ⟨k, v⟩ := hd
    simp only [List.map_cons, List.nodup_cons] at h
    by_cases hk : k = key
    · simp only [mapSet, if_pos hk, List.map_cons, List.nodup_cons]
      exact ⟨h.1, h.2⟩
    · simp only [mapSet, if_neg hk, List.map_cons, List.nodup_cons]
      refine ⟨?_, ih h.2⟩
      intro hmem
      rcases mem_keys_mapSet tl key k value hmem with h2 | h2
      · exact h.1 h2
      · exact hk h2

theorem mapGet_mapDelete_self {V : Type} (store : List (String × V)) (key : String)
    (h : (store.map Prod.fst).Nodup) : mapGet (mapDelete store key) key = none := by
  induction store with
  | nil => simp [mapDelete, mapGet]
  | cons hd tl ih =>
    obtain ⟨k, v⟩ := hd
    simp only [List.map_cons, List.nodup_cons] at h
    by_cases hk : k = key
    · simp only [mapDelete, if_pos hk]
      exact mapGet_eq_none_of_not_mem tl key (hk ▸ h.1)
    · simp only [mapDelete, if_neg hk, mapGet, ih h.2, hk, if_false]

end JsMap

namespace InMemoryCache

theorem length_seededStore {V : Type} (exp : Option Nat) :
    ∀ (start : Nat) (kvs : List (String × V)),
      (seededStore exp start kvs).length = kvs.length := by
  intro start kvs
  induction kvs generalizing start with
  | nil => rfl
  | cons hd tl ih =>
    obtain ⟨k, v⟩ := hd
    simp [seededStore, ih]

theorem keys_seededStore {V : Type} (exp : Option Nat) :
    ∀ (start : Nat) (kvs : List (String × V)),
      (seededStore exp start kvs).map Prod.fst = kvs.map Prod.fst := by
  intro start kvs
  induction kvs generalizing start with
  | nil => rfl
  | cons hd tl ih =>
    obtain ⟨k, v⟩ := hd
    simp [seededStore, ih]

theorem counter_seededStore_gt {V : Type} (exp : Option Nat) :
    ∀ (start : Nat) (kvs : List (String × V)),
      ∀ p ∈ seededStore exp start kvs, start < p.2.lastAccessCounter := by
  intro start kvs
  induction kvs generalizing start with
  | nil => intro p hp; simp [seededStore] at hp
  | cons hd tl ih =>
    obtain ⟨k, v⟩ := hd
    intro p hp
    simp only [seededStore, List.mem_cons] at hp
    rcases hp with rfl | hp
    · simp
    · have := ih (start + 1) p hp
      omega

theorem insertAll_append {V : Type} (a b : List (String × V)) :
    ∀ (c : InMemoryCache V) (now : Nat),
      insertAll c now (a ++ b) = insertAll (insertAll c now a) now b := by
  induction a with
  | nil => intro c now; rfl
  | cons hd tl ih =>
    obtain ⟨k, v⟩ := hd
    intro c now
    simp only [List.cons_append, insertAll]
    exact ih _ now

/-- Sequential insertion of fresh keys with room to spare appends
the corresponding seeded entries, with no eviction. -/
theorem insertAll_fresh {V : Type} (kvs : List (String × V)) :
    ∀ (c : InMemoryCache V) (now : Nat),
      (∀ kk ∈ kvs.map Prod.fst, mapGet c.store kk = none) →
      (kvs.map Prod.fst).Nodup →
      c.store.length + kvs.length ≤ c.options.maxItems →
      insertAll c now kvs =
        { c with
          accessCounter := c.accessCounter + kvs.length,
          store := c.store ++
            seededStore (expiryStamp c.options.ttlSeconds now) c.accessCounter kvs } := by
  induction kvs with
  | nil => intro c now _ _ _; simp [insertAll, seededStore]
  | cons hd tl ih =>
    obtain ⟨k, v⟩ := hd
    intro c now hfresh hnodup hroom
    simp only [List.map_cons, List.nodup_cons] at hnodup
    simp only [List.length_cons] at hroom
    have hkfresh : mapGet c.store k = none := hfresh k (by simp)
    have hset : c.set now k v =
        { c with
          accessCounter := c.accessCounter + 1,
          store := c.store ++
            [(k, { value := v, expiresAt := expiryStamp c.options.ttlSeconds now,
                   lastAccessCounter := c.accessCounter + 1 })] } := by
      rw [set_of_room c now k v (by omega)]
      rw [mapSet_fresh c.store k _ hkfresh]
    simp only [insertAll, hset]
    rw [ih _ now ?_ hnodup.2 ?_]
    · simp only [seededStore, List.append_assoc, List.cons_append, List.nil_append,
        List.length_cons]
      congr 1
      omega
    · intro kk hkk
      rw [mapGet_append_right _ _ kk (hfresh kk (by simp [hkk]))]
      have hne : k ≠ kk := fun e => hnodup.1 (e ▸ hkk)
      simp [mapGet, hne]
    · simp only [List.length_append, List.length_cons, List.length_nil]
      omega

end InMemoryCache

/-- C7: an entry stored by `set` at `t0` in a cache with `ttlSeconds = T`
carries expiry stamp `t0 + T*1000` (`+Infinity` when `T = 0`); `get`
returns the value while that instant has not passed and, once it has
passed, deletes the entry and returns absent. -/
theorem cache_ttl_expiry {V : Type} (c : InMemoryCache V) (t0 now : Nat)
    (key : String) (value : V)
    (hroom : c.store.length < c.options.maxItems)
    (hnodup : (c.store.map Prod.fst).Nodup) :
    (mapGet (c.set t0 key value).store key =
      some { value := value,
             expiresAt := expiryStamp c.options.ttlSeconds t0,
             lastAccessCounter := c.accessCounter + 1 }) ∧
    (0 < c.options.ttlSeconds →
      expiryStamp c.options.ttlSeconds t0 =
        some (t0 + c.options.ttlSeconds * 1000)) ∧
    (c.options.ttlSeconds = 0 → expiryStamp c.options.ttlSeconds t0 = none) ∧
    (0 < c.options.ttlSeconds →
      (now ≤ t0 + c.options.ttlSeconds * 1000 →
        ((c.set t0 key value).get now key).1 = some value) ∧
      (t0 + c.options.ttlSeconds * 1000 < now →
        ((c.set t0 key value).get now key).1 = none ∧
        mapGet ((c.set t0 key value).get now key).2.store key = none)) ∧
    (c.options.ttlSeconds = 0 →
      ((c.set t0 key value).get now key).1 = some value) := by
  rw [set_of_room c t0 key value hroom]
  set e : CacheEntry V :=
    { value := value, expiresAt := expiryStamp c.options.ttlSeconds t0,
      lastAccessCounter := c.accessCounter + 1 } with he
  have hget : mapGet (mapSet c.store key e) key = some e :=
    mapGet_mapSet_self c.store key e
  refine ⟨hget, ?_, ?_, ?_, ?_⟩
  · intro ht; simp [expiryStamp, ht]
  · intro ht; simp [expiryStamp, ht]
  · intro ht
    constructor
    · intro hnow
      have hexp : isExpired c.options.ttlSeconds now e.expiresAt = false := by
        simp [he, isExpired, expiryStamp, ht]
        omega
      simp [InMemoryCache.get, hget, hexp]
    · intro hnow
      have hexp : isExpired c.options.ttlSeconds now e.expiresAt = true := by
        simp [he, isExpired, expiryStamp, ht]
        omega
      constructor
      · simp [InMemoryCache.get, hget, hexp]
      · simp only [InMemoryCache.get, hget, hexp, if_true]
        exact mapGet_mapDelete_self _ key (nodup_keys_mapSet c.store key e hnodup)
  · intro ht
    have hexp : isExpired c.options.ttlSeconds now e.expiresAt = false := by
      simp [isExpired, ht]
    simp [InMemoryCache.get, hget, hexp]

theorem cache_ttl_expiry_witness :
    ((InMemoryCache.empty Nat ⟨1, 1⟩).store.length <
        (InMemoryCache.empty Nat ⟨1, 1⟩).options.maxItems) ∧
    mapGet ((InMemoryCache.empty Nat ⟨1, 1⟩).set 0 "k" 7).store "k" =
      some { value := 7, expiresAt := some 1000, lastAccessCounter := 1 } ∧
    (((InMemoryCache.empty Nat ⟨1, 1⟩).set 0 "k" 7).get 1000 "k").1 = some 7 ∧
    (((InMemoryCache.empty Nat ⟨1, 1⟩).set 0 "k" 7).get 1001 "k").1 = none := by
  have h := cache_ttl_expiry (InMemoryCache.empty Nat ⟨1, 1⟩) 0 1000 "k" 7
    (by decide) (by simp [InMemoryCache.empty])
  have h2 := cache_ttl_expiry (InMemoryCache.empty Nat ⟨1, 1⟩) 0 1001 "k" 7
    (by decide) (by simp [InMemoryCache.empty])
  refine ⟨by decide, ?_, ?_, ?_⟩
  · have := h.1
    simpa [expiryStamp] using this
  · exact (h.2.2.2.1 (by decide)).1 (by decide)
  · exact ((h2.2.2.2.1 (by decide)).2 (by decide)).1

namespace InMemoryCache

/-- `enforceMaxItems` on an overflowing store deletes the key found by the LRU scan. -/
theorem enforceMaxItems_evict {V : Type} (st : List (String × CacheEntry V))
    (opts : CacheOptions) (cnt : Nat) (lruKey : String) (c0 : Nat)
    (hov : ¬ st.length ≤ opts.maxItems)
    (hlru : lruFold none st = some (lruKey, c0)) :
    enforceMaxItems { store := st, options := opts, accessCounter := cnt } =
      { store := mapDelete st lruKey, options := opts, accessCounter := cnt } := by
  unfold enforceMaxItems
  simp only [hov, if_false, hlru]

end InMemoryCache

/-- C8: inserting `maxItems + 1` distinct keys into a fresh cache leaves
exactly `maxItems` keys, with the first-inserted (least recently used,
never re-accessed) key the one evicted; and in general an overflowing
store is reduced by evicting exactly one entry carrying the lowest
recency counter. -/
theorem cache_lru_bound {V : Type} (opts : CacheOptions) (now : Nat)
    (kv0 : String × V) (rest : List (String × V))
    (hmax : 1 ≤ opts.maxItems)
    (hlen : (kv0 :: rest).length = opts.maxItems + 1)
    (hnodup : ((kv0 :: rest).map Prod.fst).Nodup) :
    ((insertAll (InMemoryCache.empty V opts) now (kv0 :: rest)).store.length =
        opts.maxItems ∧
      mapGet (insertAll (InMemoryCache.empty V opts) now (kv0 :: rest)).store kv0.1 =
        none ∧
      ∀ kv ∈ rest,
        (mapGet (insertAll (InMemoryCache.empty V opts) now (kv0 :: rest)).store
            kv.1).isSome) ∧
    ∀ (c : InMemoryCache V), c.options.maxItems < c.store.length →
      ∃ k e, (k, e) ∈ c.store ∧
        (∀ p ∈ c.store, e.lastAccessCounter ≤ p.2.lastAccessCounter) ∧
        (enforceMaxItems c).store = mapDelete c.store k := by
  constructor
  · -- The concrete maxItems + 1 insertion scenario.
    obtain ⟨k0, v0⟩ := kv0
    rcases rest.eq_nil_or_concat with rfl | ⟨init, lastkv, hrest⟩
    · simp at hlen; omega
    rw [List.concat_eq_append] at hrest
    subst hrest
    obtain ⟨kl, vl⟩ := lastkv
    have hinitlen : init.length + 1 = opts.maxItems := by
      simp only [List.length_cons, List.length_append, List.length_nil] at hlen
      omega
    have hsub : List.Sublist ((k0, v0) :: init) ((k0, v0) :: (init ++ [(kl, vl)])) :=
      (List.sublist_append_left init [(kl, vl)]).cons₂ (k0, v0)
    have hkeys : (((k0, v0) :: init).map Prod.fst).Nodup :=
      hnodup.sublist (hsub.map Prod.fst)
    have hfresh0 : ∀ kk ∈ ((k0, v0) :: init).map Prod.fst,
        mapGet (InMemoryCache.empty V opts).store kk = none := fun kk _ => rfl
    have hroom0 : (InMemoryCache.empty V opts).store.length +
        ((k0, v0) :: init).length ≤ (InMemoryCache.empty V opts).options.maxItems := by
      simp only [InMemoryCache.empty, List.length_nil, List.length_cons, Nat.zero_add]
      omega
    have hc1 : insertAll (InMemoryCache.empty V opts) now ((k0, v0) :: init) =
        { store := seededStore (expiryStamp opts.ttlSeconds now) 0 ((k0, v0) :: init),
          options := opts,
          accessCounter := init.length + 1 } := by
      rw [insertAll_fresh ((k0, v0) :: init) _ now hfresh0 hkeys hroom0]
      simp [InMemoryCache.empty]
    have hnodup2 : ((((k0, v0) :: init).map Prod.fst) ++ [kl]).Nodup := by
      simpa using hnodup
    have hklnot : kl ∉ ((k0, v0) :: init).map Prod.fst := by
      intro hmem
      exact (List.nodup_append.mp hnodup2).2.2 hmem (by simp)
    have hfreshlast :
        mapGet (seededStore (expiryStamp opts.ttlSeconds now) 0 ((k0, v0) :: init))
          kl = none := by
      apply mapGet_eq_none_of_not_mem
      rw [keys_seededStore]
      exact hklnot
    have hseedcons : seededStore (expiryStamp opts.ttlSeconds now) 0 ((k0, v0) :: init) =
        (k0, { value := v0, expiresAt := expiryStamp opts.ttlSeconds now,
               lastAccessCounter := 1 }) ::
          seededStore (expiryStamp opts.ttlSeconds now) 1 init := rfl
    have hlenov : ¬ ((seededStore (expiryStamp opts.ttlSeconds now) 0 ((k0, v0) :: init) ++
        [(kl, ({ value := vl, expiresAt := expiryStamp opts.ttlSeconds now,
                 lastAccessCounter := init.length + 1 + 1 } : CacheEntry V))]).length ≤
          opts.maxItems) := by
      rw [List.length_append, length_seededStore]
      simp only [List.length_cons, List.length_nil]
      omega
    have hlru : lruFold none
        (seededStore (expiryStamp opts.ttlSeconds now) 0 ((k0, v0) :: init) ++
          [(kl, ({ value := vl, expiresAt := expiryStamp opts.ttlSeconds now,
                   lastAccessCounter := init.length + 1 + 1 } : CacheEntry V))]) =
        some (k0, 1) := by
      rw [hseedcons, List.cons_append]
      have hbound : ∀ p ∈ seededStore (expiryStamp opts.ttlSeconds now) 1 init ++
          [(kl, ({ value := vl, expiresAt := expiryStamp opts.ttlSeconds now,
                   lastAccessCounter := init.length + 1 + 1 } : CacheEntry V))],
          ({ value := v0, expiresAt := expiryStamp opts.ttlSeconds now,
             lastAccessCounter := 1 } : CacheEntry V).lastAccessCounter ≤
            p.2.lastAccessCounter := by
        intro p hp
        rcases List.mem_append.mp hp with hp | hp
        · have := counter_seededStore_gt (expiryStamp opts.ttlSeconds now) 1 init p hp
          simp only
          omega
        · simp only [List.mem_singleton] at hp
          subst hp
          simp only
          omega
      exact lruFold_first_min k0 _ _ hbound
    have hsetstore :
        (insertAll (InMemoryCache.empty V opts) now ((k0, v0) :: (init ++ [(kl, vl)]))).store =
        seededStore (expiryStamp opts.ttlSeconds now) 1 init ++
          [(kl, ({ value := vl, expiresAt := expiryStamp opts.ttlSeconds now,
                   lastAccessCounter := init.length + 1 + 1 } : CacheEntry V))] := by
      rw [show (k0, v0) :: (init ++ [(kl, vl)]) = ((k0, v0) :: init) ++ [(kl, vl)] from rfl,
        insertAll_append, hc1]
      show (InMemoryCache.set _ now kl vl).store = _
      rw [set_eq_enforce]
      simp only
      rw [mapSet_fresh _ _ _ hfreshlast]
      rw [enforceMaxItems_evict _ _ _ _ _ hlenov hlru]
      simp only
      rw [hseedcons, List.cons_append]
      simp [mapDelete]
    refine ⟨?_, ?_, ?_⟩
    · rw [hsetstore, List.length_append, length_seededStore]
      simp only [List.length_cons, List.length_nil]
      omega
    · rw [hsetstore]
      apply mapGet_eq_none_of_not_mem
      rw [List.map_append, keys_seededStore]
      intro hmem
      have hk0 : (k0, v0).1 ∉ (init ++ [(kl, vl)]).map Prod.fst := by
        simpa using (List.nodup_cons.mp hnodup).1
      apply hk0
      simpa using hmem
    · intro kv hkv
      rw [hsetstore]
      apply mapGet_isSome_of_mem
      rw [List.map_append, keys_seededStore]
      rcases List.mem_append.mp hkv with hkv | hkv
      · exact List.mem_append.mpr (Or.inl (List.mem_map_of_mem Prod.fst hkv))
      · simp only [List.mem_singleton] at hkv
        subst hkv
        simp
  · -- The general single-eviction clause.
    intro c hov
    match hst : c.store with
    | [] => rw [hst] at hov; simp at hov
    | hd :: tl =>
      have hsome := lruFold_cons_isSome hd tl
      match hfold : lruFold none (hd :: tl) with
      | none => simp [hfold] at hsome
      | some (lruKey, cmin) =>
        rcases lruFold_mem (hd :: tl) none lruKey cmin hfold with ⟨e, hmem, hc⟩ | habs
        · refine ⟨lruKey, e, hmem, ?_, ?_⟩
          · intro p hp
            have := (lruFold_min (hd :: tl) none lruKey cmin hfold).1 p hp
            omega
          · unfold enforceMaxItems
            rw [hst] at hov
            rw [hst, if_neg (by omega), hfold]
        · simp at habs

theorem cache_lru_bound_witness :
    1 ≤ (⟨30, 2⟩ : CacheOptions).maxItems ∧
    ((("a", (0 : Nat)) :: [("b", 1), ("c", 2)]).length =
      (⟨30, 2⟩ : CacheOptions).maxItems + 1) ∧
    ((insertAll (InMemoryCache.empty Nat ⟨30, 2⟩) 5
        (("a", 0) :: [("b", 1), ("c", 2)])).store.length =
      (⟨30, 2⟩ : CacheOptions).maxItems ∧
    mapGet (insertAll (InMemoryCache.empty Nat ⟨30, 2⟩) 5
        (("a", 0) :: [("b", 1), ("c", 2)])).store ("a", (0 : Nat)).1 = none ∧
    ∀ kv ∈ [("b", (1 : Nat)), ("c", 2)],
      (mapGet (insertAll (InMemoryCache.empty Nat ⟨30, 2⟩) 5
          (("a", 0) :: [("b", 1), ("c", 2)])).store kv.1).isSome) :=
  ⟨by decide, by decide,
    (cache_lru_bound ⟨30, 2⟩ 5 ("a", 0) [("b", 1), ("c", 2)]
      (by decide) (by decide) (by decide)).1⟩

namespace InMemoryCache

theorem get_cases {V : Type} (c : InMemoryCache V) (now : Nat) (key : String) :
    (c.get now key).2 = c ∨
    (c.get now key).2 = { c with store := mapDelete c.store key } ∨
    ∃ entry, mapGet c.store key = some entry ∧
      (c.get now key).2 =
        { c with
          accessCounter := c.accessCounter + 1,
          store := mapSet c.store key
            { entry with lastAccessCounter := c.accessCounter + 1 } } := by
  rcases hm : mapGet c.store key with _ | entry
  · left
    simp only [get, hm]
  · by_cases hexp : isExpired c.options.ttlSeconds now entry.expiresAt
    · right; left
      simp only [get, hm, hexp, if_true]
    · right; right
      exact ⟨entry, rfl, by simp [get, hm, hexp]⟩

theorem enforceMaxItems_options {V : Type} (c : InMemoryCache V) :
    (enforceMaxItems c).options = c.options := by
  unfold enforceMaxItems
  by_cases h : c.store.length ≤ c.options.maxItems
  · simp [h]
  · simp only [h, if_false]
    rcases hf : lruFold none c.store with _ | ⟨k, cm⟩ <;> rfl

theorem runOp_preserves {V : Type} (c : InMemoryCache V) (op : CacheOp V)
    (h : c.store.length ≤ c.options.maxItems) :
    (runOp c op).store.length ≤ (runOp c op).options.maxItems ∧
    (runOp c op).options = c.options := by
  cases op with
  | opGet now key =>
    rcases get_cases c now key with h1 | h1 | ⟨entry, hm, h1⟩
    · rw [runOp, h1]; exact ⟨h, rfl⟩
    · rw [runOp, h1]
      refine ⟨?_, rfl⟩
      have := length_mapDelete_le c.store key
      simpa using Nat.le_trans this h
    · rw [runOp, h1]
      refine ⟨?_, rfl⟩
      have := length_mapSet_present c.store key
        ({ entry with lastAccessCounter := c.accessCounter + 1 })
        (by rw [hm]; rfl)
      simpa [this] using h
  | opSet now key value =>
    rw [runOp, set_eq_enforce]
    refine ⟨?_, enforceMaxItems_options _⟩
    have hlen : (mapSet c.store key
        { value := value, expiresAt := expiryStamp c.options.ttlSeconds now,
          lastAccessCounter := c.accessCounter + 1 }).length ≤
        c.store.length + 1 := length_mapSet_le _ _ _
    have := enforceMaxItems_length
      ({ c with
         accessCounter := c.accessCounter + 1,
         store := mapSet c.store key
           { value := value, expiresAt := expiryStamp c.options.ttlSeconds now,
             lastAccessCounter := c.accessCounter + 1 } })
      (by simpa using Nat.le_trans hlen (by omega))
    rw [enforceMaxItems_options]
    simpa using this
  | opDelete key =>
    rw [runOp]
    refine ⟨?_, rfl⟩
    have := length_mapDelete_le c.store key
    simpa [del] using Nat.le_trans this h
  | opClear =>
    rw [runOp]
    exact ⟨by simp [clear], rfl⟩

theorem runOps_invariant {V : Type} (ops : List (CacheOp V)) :
    ∀ c : InMemoryCache V, c.store.length ≤ c.options.maxItems →
      (runOps c ops).store.length ≤ (runOps c ops).options.maxItems ∧
      (runOps c ops).options = c.options := by
  induction ops with
  | nil => exact fun c h => ⟨h, rfl⟩
  | cons op rest ih =>
    intro c h
    have h1 := runOp_preserves c op h
    have h2 := ih (runOp c op) h1.1
    exact ⟨h2.1, h2.2.trans h1.2⟩

end InMemoryCache

/-- C9: for a cache built with `maxItems ≥ 1`, the store never exceeds
`maxItems` entries after any completed operation sequence; and a `set`
that overwrites an existing key leaves the store at the same size and
evicts nothing (the resulting store is exactly the in-place overwrite). -/
theorem cache_size_invariant {V : Type} (opts : CacheOptions) (ops : List (CacheOp V))
    (hmax : 1 ≤ opts.maxItems) :
    (runOps (InMemoryCache.empty V opts) ops).store.length ≤ opts.maxItems ∧
    ∀ (c : InMemoryCache V) (now : Nat) (key : String) (value : V),
      (mapGet c.store key).isSome →
      c.store.length ≤ c.options.maxItems →
      (c.set now key value).store =
        mapSet c.store key
          { value := value, expiresAt := expiryStamp c.options.ttlSeconds now,
            lastAccessCounter := c.accessCounter + 1 } ∧
      (c.set now key value).store.length = c.store.length := by
  constructor
  · have h := runOps_invariant ops (InMemoryCache.empty V opts)
      (by simp [InMemoryCache.empty])
    have hopts : (runOps (InMemoryCache.empty V opts) ops).options = opts := h.2
    rw [hopts] at h
    exact h.1
  · intro c now key value hpresent hbound
    have hlen : (mapSet c.store key
        { value := value, expiresAt := expiryStamp c.options.ttlSeconds now,
          lastAccessCounter := c.accessCounter + 1 }).length = c.store.length :=
      length_mapSet_present _ _ _ hpresent
    rw [set_eq_enforce, enforceMaxItems_of_le _ (by simpa [hlen] using hbound)]
    exact ⟨rfl, hlen⟩

theorem cache_size_invariant_witness :
    1 ≤ (⟨30, 2⟩ : CacheOptions).maxItems ∧
    (runOps (InMemoryCache.empty Nat ⟨30, 2⟩)
        [CacheOp.opSet 0 "a" 1, CacheOp.opSet 1 "b" 2, CacheOp.opSet 2 "c" 3,
         CacheOp.opGet 3 "b", CacheOp.opDelete "c",
         CacheOp.opClear]).store.length ≤ (⟨30, 2⟩ : CacheOptions).maxItems :=
  ⟨by decide,
    (cache_size_invariant ⟨30, 2⟩
      [CacheOp.opSet 0 "a" 1, CacheOp.opSet 1 "b" 2, CacheOp.opSet 2 "c" 3,
       CacheOp.opGet 3 "b", CacheOp.opDelete "c", CacheOp.opClear]
      (by decide)).1⟩

theorem utf8DecodeLoop_fuel : ∀ (fuel1 fuel2 : Nat) (l : List Nat),
    l.length ≤ fuel1 → l.length ≤ fuel2 →
    utf8DecodeLoop fuel1 l = utf8DecodeLoop fuel2 l := by
  intro fuel1
  induction fuel1 with
  | zero =>
    intro fuel2 l h1 _
    have : l = [] := List.eq_nil_of_length_eq_zero (by omega)
    subst this
    cases fuel2 <;> rfl
  | succ f ih =>
    intro fuel2 l h1 h2
    match l with
    | [] => cases fuel2 <;> rfl
    | b1 :: rest =>
      match fuel2 with
      | 0 => simp at h2
      | g + 1 =>
        simp only [utf8DecodeLoop]
        congr 1
        have hd := rest.length_drop (utf8DecodeOne b1 rest).2
        simp only [List.length_cons] at h1 h2
        exact ih g _ (by omega) (by omega)

theorem Char.toNat_ofNat_valid (n : Nat) (h : n.isValidChar) :
    (Char.ofNat n).toNat = n := by
  unfold Char.ofNat
  simp only [h, dif_pos]
  rfl

theorem utf8EncodeChar_lt (c : Char) : ∀ b ∈ utf8EncodeChar c, b < 256 := by
  have hv : c.toNat.isValidChar := c.valid
  have hlt : c.toNat < 0x110000 := by
    rcases hv with h | h
    · omega
    · omega
  intro b hb
  unfold utf8EncodeChar at hb
  by_cases h1 : c.toNat < 0x80
  · simp only [h1, if_true, List.mem_singleton] at hb
    omega
  · by_cases h2 : c.toNat < 0x800
    · simp only [h1, h2, if_true, if_false, List.mem_cons, List.mem_singleton,
        List.not_mem_nil, or_false] at hb
      rcases hb with rfl | rfl <;> omega
    · by_cases h3 : c.toNat < 0x10000
      · simp only [h1, h2, h3, if_true, if_false, List.mem_cons,
          List.not_mem_nil, or_false] at hb
        rcases hb with rfl | rfl | rfl <;> omega
      · simp only [h1, h2, h3, if_false, List.mem_cons,
          List.not_mem_nil, or_false] at hb
        rcases hb with rfl | rfl | rfl | rfl <;> omega

theorem utf8Decode_cons (b1 : Nat) (rest : List Nat) :
    utf8Decode (b1 :: rest) =
      (utf8DecodeOne b1 rest).1 ::
        utf8Decode (rest.drop (utf8DecodeOne b1 rest).2) := by
  unfold utf8Decode
  simp only [List.length_cons, utf8DecodeLoop]
  congr 1
  exact utf8DecodeLoop_fuel rest.length _ _
    (by have := rest.length_drop (utf8DecodeOne b1 rest).2; omega) (Nat.le_refl _)

/-- Decoding an encoded character in front of any byte tail gives the
character back and proceeds with the tail. -/
theorem utf8Decode_encodeChar (c : Char) (bs : List Nat) :
    utf8Decode (utf8EncodeChar c ++ bs) = c :: utf8Decode bs := by
  have hv : c.toNat.isValidChar := c.valid
  have hsur : c.toNat < 0xD800 ∨ (0xDFFF < c.toNat ∧ c.toNat < 0x110000) := hv
  unfold utf8EncodeChar
  by_cases h1 : c.toNat < 0x80
  · simp only [h1, if_true, List.cons_append, List.nil_append]
    rw [utf8Decode_cons]
    have hone : utf8DecodeOne c.toNat bs = (Char.ofNat c.toNat, 0) := by
      unfold utf8DecodeOne
      simp only [List.getD_cons_zero, List.getD_cons_succ]
      rw [if_pos h1]
    rw [hone]
    simp [Char.ofNat_toNat]
  · by_cases h2 : c.toNat < 0x800
    · simp only [h1, h2, if_true, if_false, List.cons_append, List.nil_append]
      rw [utf8Decode_cons]
      have hone : utf8DecodeOne (0xC0 + c.toNat / 64) ((0x80 + c.toNat % 64) :: bs) =
          (Char.ofNat c.toNat, 1) := by
        unfold utf8DecodeOne
        simp only [List.getD_cons_zero, List.getD_cons_succ]
        rw [if_neg (by first | omega), if_neg (by omega), if_pos (by first | omega)]
        rw [if_pos (by omega)]
        have harg : (0xC0 + c.toNat / 64 - 0xC0) * 64 + (0x80 + c.toNat % 64 - 0x80) =
            c.toNat := by omega
        rw [harg]
      rw [hone]
      simp [Char.ofNat_toNat]
    · by_cases h3 : c.toNat < 0x10000
      · simp only [h1, h2, h3, if_true, if_false, List.cons_append, List.nil_append]
        rw [utf8Decode_cons]
        have hone : utf8DecodeOne (0xE0 + c.toNat / 4096)
            ((0x80 + c.toNat / 64 % 64) :: (0x80 + c.toNat % 64) :: bs) =
            (Char.ofNat c.toNat, 2) := by
          unfold utf8DecodeOne
          simp only [List.getD_cons_zero, List.getD_cons_succ]
          rw [if_neg (by first | omega), if_neg (by omega)]
          rw [if_neg (by first | omega), if_pos (by omega)]
          rw [if_pos (by refine ⟨⟨?_, ?_⟩, ?_, ?_⟩ <;> omega)]
          have harg : (0xE0 + c.toNat / 4096 - 0xE0) * 4096 +
              (0x80 + c.toNat / 64 % 64 - 0x80) * 64 + (0x80 + c.toNat % 64 - 0x80) =
              c.toNat := by omega
          rw [harg]
          rw [if_neg (by omega)]
        rw [hone]
        simp [Char.ofNat_toNat]
      · simp only [h1, h2, h3, if_false, List.cons_append, List.nil_append]
        rw [utf8Decode_cons]
        have hone : utf8DecodeOne (0xF0 + c.toNat / 262144)
            ((0x80 + c.toNat / 4096 % 64) :: (0x80 + c.toNat / 64 % 64) ::
              (0x80 + c.toNat % 64) :: bs) =
            (Char.ofNat c.toNat, 3) := by
          unfold utf8DecodeOne
          simp only [List.getD_cons_zero, List.getD_cons_succ]
          rw [if_neg (by first | omega), if_neg (by omega)]
          rw [if_neg (by first | omega), if_neg (by omega)]
          rw [if_pos (by first | omega)]
          rw [if_pos (show _ ∧ _ ∧ _ ∧ _ from
            ⟨⟨by omega, by omega⟩, ⟨by omega, by omega⟩, by omega, by omega⟩)]
          have harg : (0xF0 + c.toNat / 262144 - 0xF0) * 262144 +
              (0x80 + c.toNat / 4096 % 64 - 0x80) * 4096 +
              (0x80 + c.toNat / 64 % 64 - 0x80) * 64 + (0x80 + c.toNat % 64 - 0x80) =
              c.toNat := by omega
          rw [harg]
          rw [if_neg (by omega)]
        rw [hone]
        simp [Char.ofNat_toNat]

/-- UTF-8 round trip on whole strings. -/
theorem utf8Decode_encode (cs : List Char) : utf8Decode (utf8Encode cs) = cs := by
  induction cs with
  | nil => rfl
  | cons c rest ih =>
    unfold utf8Encode
    simp only [List.map_cons, List.flatten_cons]
    rw [utf8Decode_encodeChar]
    unfold utf8Encode at ih
    rw [ih]

theorem utf8Encode_lt (cs : List Char) : ∀ b ∈ utf8Encode cs, b < 256 := by
  intro b hb
  unfold utf8Encode at hb
  rw [List.mem_flatten] at hb
  rcases hb with ⟨l, hl, hb⟩
  rw [List.mem_map] at hl
  rcases hl with ⟨c, _, rfl⟩
  exact utf8EncodeChar_lt c b hb

theorem b64Index_ofIndex : ∀ i, i < 64 →
    b64IndexOfChar (b64CharOfIndex i) = some i := by decide

theorem b64Index_pad : b64IndexOfChar '=' = none := by decide

theorem b64Sextets_cons_valid (i : Nat) (h : i < 64) (cs : List Char) :
    b64Sextets (b64CharOfIndex i :: cs) = i :: b64Sextets cs := by
  unfold b64Sextets
  rw [List.filterMap_cons, b64Index_ofIndex i h]

theorem b64Sextets_cons_pad (cs : List Char) :
    b64Sextets ('=' :: cs) = b64Sextets cs := by
  unfold b64Sextets
  rw [List.filterMap_cons, b64Index_pad]

/-- Base64 round trip on byte sequences. -/
theorem b64DecodeSextets_encode : ∀ (l : List Nat), (∀ b ∈ l, b < 256) →
    b64DecodeSextets (b64Sextets (b64EncodeBytes l)) = l
  | [], _ => by
    simp [b64EncodeBytes, b64Sextets, b64DecodeSextets]
  | [a], h => by
    have ha : a < 256 := h a (by simp)
    rw [show b64EncodeBytes [a] =
      [b64CharOfIndex (a / 4), b64CharOfIndex (a % 4 * 16), '=', '='] from rfl]
    rw [b64Sextets_cons_valid _ (by omega), b64Sextets_cons_valid _ (by omega),
      b64Sextets_cons_pad, b64Sextets_cons_pad]
    rw [show b64Sextets [] = [] from rfl]
    rw [show b64DecodeSextets [a / 4, a % 4 * 16] =
      [a / 4 * 4 + a % 4 * 16 / 16] from rfl]
    have : a / 4 * 4 + a % 4 * 16 / 16 = a := by omega
    rw [this]
  | [a, b], h => by
    have ha : a < 256 := h a (by simp)
    have hb : b < 256 := h b (by simp)
    rw [show b64EncodeBytes [a, b] =
      [b64CharOfIndex (a / 4), b64CharOfIndex (a % 4 * 16 + b / 16),
       b64CharOfIndex (b % 16 * 4), '='] from rfl]
    rw [b64Sextets_cons_valid _ (by omega), b64Sextets_cons_valid _ (by omega),
      b64Sextets_cons_valid _ (by omega), b64Sextets_cons_pad]
    rw [show b64Sextets [] = [] from rfl]
    rw [show b64DecodeSextets [a / 4, a % 4 * 16 + b / 16, b % 16 * 4] =
      [a / 4 * 4 + (a % 4 * 16 + b / 16) / 16,
       (a % 4 * 16 + b / 16) % 16 * 16 + b % 16 * 4 / 4] from rfl]
    have h1 : a / 4 * 4 + (a % 4 * 16 + b / 16) / 16 = a := by omega
    have h2 : (a % 4 * 16 + b / 16) % 16 * 16 + b % 16 * 4 / 4 = b := by omega
    rw [h1, h2]
  | (a :: b :: c :: d :: rest), h => by
    have ha : a < 256 := h a (by simp)
    have hb : b < 256 := h b (by simp)
    have hc : c < 256 := h c (by simp)
    have ih := b64DecodeSextets_encode (d :: rest)
      (fun x hx => h x (by simp at hx ⊢; tauto))
    rw [show b64EncodeBytes (a :: b :: c :: d :: rest) =
      b64CharOfIndex (a / 4) :: b64CharOfIndex (a % 4 * 16 + b / 16) ::
        b64CharOfIndex (b % 16 * 4 + c / 64) :: b64CharOfIndex (c % 64) ::
          b64EncodeBytes (d :: rest) from rfl]
    rw [b64Sextets_cons_valid _ (by omega), b64Sextets_cons_valid _ (by omega),
      b64Sextets_cons_valid _ (by omega), b64Sextets_cons_valid _ (by omega)]
    rw [show ∀ s1 s2 s3 s4 X, b64DecodeSextets (s1 :: s2 :: s3 :: s4 :: X) =
      (s1 * 4 + s2 / 16) :: (s2 % 16 * 16 + s3 / 4) :: (s3 % 4 * 64 + s4) ::
        b64DecodeSextets X from fun _ _ _ _ _ => rfl]
    rw [ih]
    have h1 : a / 4 * 4 + (a % 4 * 16 + b / 16) / 16 = a := by omega
    have h2 : (a % 4 * 16 + b / 16) % 16 * 16 + (b % 16 * 4 + c / 64) / 4 = b := by
      omega
    have h3 : (b % 16 * 4 + c / 64) % 4 * 64 + c % 64 = c := by omega
    rw [h1, h2, h3]
  | [a, b, c], h => by
    have ha : a < 256 := h a (by simp)
    have hb : b < 256 := h b (by simp)
    have hc : c < 256 := h c (by simp)
    rw [show b64EncodeBytes [a, b, c] =
      [b64CharOfIndex (a / 4), b64CharOfIndex (a % 4 * 16 + b / 16),
       b64CharOfIndex (b % 16 * 4 + c / 64), b64CharOfIndex (c % 64)] from rfl]
    rw [b64Sextets_cons_valid _ (by omega), b64Sextets_cons_valid _ (by omega),
      b64Sextets_cons_valid _ (by omega), b64Sextets_cons_valid _ (by omega)]
    rw [show b64Sextets [] = [] from rfl]
    rw [show b64DecodeSextets
      [a / 4, a % 4 * 16 + b / 16, b % 16 * 4 + c / 64, c % 64] =
      [a / 4 * 4 + (a % 4 * 16 + b / 16) / 16,
       (a % 4 * 16 + b / 16) % 16 * 16 + (b % 16 * 4 + c / 64) / 4,
       (b % 16 * 4 + c / 64) % 4 * 64 + c % 64] from rfl]
    have h1 : a / 4 * 4 + (a % 4 * 16 + b / 16) / 16 = a := by omega
    have h2 : (a % 4 * 16 + b / 16) % 16 * 16 + (b % 16 * 4 + c / 64) / 4 = b := by
      omega
    have h3 : (b % 16 * 4 + c / 64) % 4 * 64 + c % 64 = c := by omega
    rw [h1, h2, h3]
termination_by l => l.length

/-- Full byte-string round trip used by the cursor codec. -/
theorem b64Decode_encode (l : List Nat) (h : ∀ b ∈ l, b < 256) :
    b64Decode (b64Encode l) = l := by
  unfold b64Decode b64Encode
  rw [show (String.mk (b64EncodeBytes l)).data = b64EncodeBytes l from rfl]
  exact b64DecodeSextets_encode l h

/-! ### Parser lemmas: `JSON.parse ∘ JSON.stringify` on the payloads -/

theorem hexVal_hexDigitChar : ∀ d, d < 16 → hexVal (hexDigitChar d) = some d := by
  decide

theorem skipWs_cons_not (c : Char) (l : List Char)
    (h : ¬(c = ' ' ∨ c.toNat = 9 ∨ c.toNat = 10 ∨ c.toNat = 13)) :
    skipWs (c :: l) = c :: l := by
  simp only [skipWs, h, if_false]

theorem parseStringBody_raw (c : Char) (l : List Char)
    (h1 : ¬ c = '"') (h2 : ¬ c = '\\') (h3 : ¬ c.toNat < 32) :
    parseStringBody (c :: l) =
      (parseStringBody l).map (fun p => (c :: p.1, p.2)) := by
  conv_lhs => unfold parseStringBody
  simp only [h1, h2, h3, if_false]
  cases hp : parseStringBody l with
  | none => simp [hp]
  | some p => simp [hp]

theorem parseStringBody_esc (e ch : Char) (l : List Char)
    (he : escCharMeaning e = some ch) (hu : ¬ e = 'u') :
    parseStringBody ('\\' :: e :: l) =
      (parseStringBody l).map (fun p => (ch :: p.1, p.2)) := by
  conv_lhs => unfold parseStringBody
  simp only [show ¬ ('\\' : Char) = '"' by decide, if_false, if_pos rfl, hu, he]
  cases hp : parseStringBody l with
  | none => simp [hp]
  | some p => simp [hp]

theorem parseStringBody_u (n : Nat) (l : List Char) (hn : n < 32) :
    parseStringBody ('\\' :: 'u' :: '0' :: '0' ::
        hexDigitChar (n / 16) :: hexDigitChar (n % 16) :: l) =
      (parseStringBody l).map (fun p => (Char.ofNat n :: p.1, p.2)) := by
  have h0 : hexVal '0' = some 0 := by decide
  have hh1 : hexVal (hexDigitChar (n / 16)) = some (n / 16) :=
    hexVal_hexDigitChar _ (by omega)
  have hh2 : hexVal (hexDigitChar (n % 16)) = some (n % 16) :=
    hexVal_hexDigitChar _ (by omega)
  conv_lhs => unfold parseStringBody
  simp only [show ¬ ('\\' : Char) = '"' by decide, if_false, if_pos rfl, h0, hh1, hh2]
  have hval : 0 * 4096 + 0 * 256 + n / 16 * 16 + n % 16 = n := by omega
  rw [hval]
  have hcu : charOfCodeUnit n = Char.ofNat n := by
    unfold charOfCodeUnit
    rw [if_neg (by omega)]
  rw [hcu]
  cases hp : parseStringBody l with
  | none => simp [hp]
  | some p => simp [hp]

/-- Parsing the escaped body of a `JSON.stringify`d string recovers exactly
the original characters and stops at the closing quote. -/
theorem parseStringBody_escaped (cs : List Char) (rest : List Char) :
    parseStringBody ((cs.map escapeChar).flatten ++ '"' :: rest) =
      some (cs, rest) := by
  induction cs with
  | nil =>
    simp only [List.map_nil, List.flatten_nil, List.nil_append]
    conv_lhs => unfold parseStringBody
    simp
  | cons c cs ih =>
    simp only [List.map_cons, List.flatten_cons, List.append_assoc]
    by_cases hq : c = '"'
    · subst hq
      rw [show escapeChar '"' = ['\\', '"'] from by decide]
      simp only [List.cons_append, List.nil_append]
      rw [parseStringBody_esc '"' '"' _ (by decide) (by decide), ih]
      rfl
    · by_cases hbk : c = '\\'
      · subst hbk
        rw [show escapeChar '\\' = ['\\', '\\'] from by decide]
        simp only [List.cons_append, List.nil_append]
        rw [parseStringBody_esc '\\' '\\' _ (by decide) (by decide), ih]
        rfl
      · by_cases h8 : c.toNat = 8
        · have hesc : escapeChar c = ['\\', 'b'] := by
            unfold escapeChar
            simp only [hq, hbk, h8, if_false, if_true]
          rw [hesc]
          simp only [List.cons_append, List.nil_append]
          rw [parseStringBody_esc 'b' (Char.ofNat 8) _ (by decide) (by decide), ih]
          rw [show Char.ofNat 8 = Char.ofNat c.toNat from by rw [h8],
            Char.ofNat_toNat c]
          rfl
        · by_cases h9 : c.toNat = 9
          · have hesc : escapeChar c = ['\\', 't'] := by
              unfold escapeChar
              simp only [hq, hbk, h8, h9, if_false, if_true]
              all_goals decide
            rw [hesc]
            simp only [List.cons_append, List.nil_append]
            rw [parseStringBody_esc 't' (Char.ofNat 9) _ (by decide) (by decide), ih]
            rw [show Char.ofNat 9 = Char.ofNat c.toNat from by rw [h9],
              Char.ofNat_toNat c]
            rfl
          · by_cases h10 : c.toNat = 10
            · have hesc : escapeChar c = ['\\', 'n'] := by
                unfold escapeChar
                simp only [hq, hbk, h8, h9, h10, if_false, if_true]
                all_goals decide
              rw [hesc]
              simp only [List.cons_append, List.nil_append]
              rw [parseStringBody_esc 'n' (Char.ofNat 10) _ (by decide) (by decide), ih]
              rw [show Char.ofNat 10 = Char.ofNat c.toNat from by rw [h10],
                Char.ofNat_toNat c]
              rfl
            · by_cases h12 : c.toNat = 12
              · have hesc : escapeChar c = ['\\', 'f'] := by
                  unfold escapeChar
                  simp only [hq, hbk, h8, h9, h10, h12, if_false, if_true]
                  all_goals decide
                rw [hesc]
                simp only [List.cons_append, List.nil_append]
                rw [parseStringBody_esc 'f' (Char.ofNat 12) _ (by decide) (by decide), ih]
                rw [show Char.ofNat 12 = Char.ofNat c.toNat from by rw [h12],
                  Char.ofNat_toNat c]
                rfl
              · by_cases h13 : c.toNat = 13
                · have hesc : escapeChar c = ['\\', 'r'] := by
                    unfold escapeChar
                    simp only [hq, hbk, h8, h9, h10, h12, h13, if_false, if_true]
                    all_goals decide
                  rw [hesc]
                  simp only [List.cons_append, List.nil_append]
                  rw [parseStringBody_esc 'r' (Char.ofNat 13) _ (by decide) (by decide), ih]
                  rw [show Char.ofNat 13 = Char.ofNat c.toNat from by rw [h13],
                    Char.ofNat_toNat c]
                  rfl
                · by_cases hctl : c.toNat < 32
                  · have hesc : escapeChar c = '\\' :: 'u' :: '0' :: '0' ::
                        hexDigitChar (c.toNat / 16) :: [hexDigitChar (c.toNat % 16)] := by
                      unfold escapeChar
                      simp only [hq, hbk, h8, h9, h10, h12, h13, hctl, if_false, if_true]
                    rw [hesc]
                    simp only [List.cons_append, List.nil_append]
                    rw [parseStringBody_u c.toNat _ hctl, ih]
                    rw [Char.ofNat_toNat c]
                    rfl
                  · have hesc : escapeChar c = [c] := by
                      unfold escapeChar
                      simp only [hq, hbk, h8, h9, h10, h12, h13, hctl, if_false]
                    rw [hesc]
                    simp only [List.cons_append, List.nil_append]
                    rw [parseStringBody_raw c _ hq hbk hctl, ih]
                    rfl

theorem String.mk_data_eq (s : String) : String.mk s.data = s := rfl

theorem parseValue_quote (s : String) (fuel : Nat) (rest : List Char) :
    parseValue (fuel + 1) (quoteString s ++ rest) = some (.str s, rest) := by
  have hshape : quoteString s ++ rest =
      '"' :: ((s.data.map escapeChar).flatten ++ '"' :: rest) := by
    simp [quoteString]
  rw [hshape]
  conv_lhs => unfold parseValue
  rw [skipWs_cons_not _ _ (by decide)]
  simp only [eq_self_iff_true, if_true, parseStringBody_escaped, String.mk_data_eq]

theorem quoteString_append (s : String) (l : List Char) :
    quoteString s ++ l = '"' :: ((s.data.map escapeChar).flatten ++ '"' :: l) := by
  simp [quoteString]

/-- A final `"key": "value" }` member. -/
theorem parseMembers_last (key : String) (v : String) (fuel : Nat)
    (acc : List (String × Json)) (rest : List Char) :
    parseMembersAfterKey (fuel + 2) key
        (':' :: (quoteString v ++ Char.ofNat 125 :: rest)) acc =
      some (.obj (mapSet acc key (.str v)), rest) := by
  conv_lhs => unfold parseMembersAfterKey
  rw [skipWs_cons_not _ _ (by decide)]
  simp only [eq_self_iff_true, if_true]
  rw [parseValue_quote]
  simp only []
  rw [skipWs_cons_not _ _ (by decide)]
  simp only [show ¬(Char.ofNat 125 = ',') from by decide, if_false,
    show (Char.ofNat 125).toNat = 125 from by decide, eq_self_iff_true, if_true]

/-- A `"key": "value", "key2"` member followed by more members. -/
theorem parseMembers_cont (key : String) (v : String) (k2 : String) (fuel : Nat)
    (acc : List (String × Json)) (l2 : List Char) :
    parseMembersAfterKey (fuel + 2) key
        (':' :: (quoteString v ++ ',' :: (quoteString k2 ++ l2))) acc =
      parseMembersAfterKey (fuel + 1) k2 l2 (mapSet acc key (.str v)) := by
  conv_lhs => unfold parseMembersAfterKey
  rw [skipWs_cons_not _ _ (by decide)]
  simp only [eq_self_iff_true, if_true]
  rw [parseValue_quote]
  simp only []
  rw [skipWs_cons_not _ _ (by decide)]
  simp only [eq_self_iff_true, if_true]
  rw [quoteString_append, skipWs_cons_not _ _ (by decide)]
  simp only [eq_self_iff_true, if_true, parseStringBody_escaped, String.mk_data_eq]

/-- Opening a non-empty object at its first key. -/
theorem parseObjBody_key (k : String) (fuel : Nat) (l : List Char) :
    parseObjBody (fuel + 1) (quoteString k ++ l) =
      parseMembersAfterKey fuel k l [] := by
  conv_lhs => unfold parseObjBody
  rw [quoteString_append, skipWs_cons_not _ _ (by decide)]
  simp only [show ¬(('"' : Char).toNat = 125) from by decide, if_false,
    eq_self_iff_true, if_true, parseStringBody_escaped, String.mk_data_eq]

/-- The exact character shape of the serialized payload. -/
theorem stringify_payload_shape (a cI : String) (rest : List Char) :
    jsonStringify (payloadJson ⟨a, cI⟩) ++ rest =
      Char.ofNat 123 :: (quoteString "addedAt" ++ ':' ::
        (quoteString a ++ ',' :: (quoteString "contentId" ++ ':' ::
          (quoteString cI ++ Char.ofNat 125 :: rest)))) := by
  show (Char.ofNat 123 ::
      stringifyFields [("addedAt", .str a), ("contentId", .str cI)] ++
        [Char.ofNat 125]) ++ rest = _
  rw [show stringifyFields [("addedAt", .str a), ("contentId", .str cI)] =
      quoteString "addedAt" ++ ':' :: jsonStringify (.str a) ++
        ',' :: (quoteString "contentId" ++ ':' :: jsonStringify (.str cI)) from by
    rw [stringifyFields, stringifyFields]]
  rw [show jsonStringify (Json.str a) = quoteString a from by rw [jsonStringify],
    show jsonStringify (Json.str cI) = quoteString cI from by rw [jsonStringify]]
  simp [List.append_assoc]

/-- Parsing back a serialized payload object. -/
theorem parseValue_payload (a cI : String) (fuel : Nat) (rest : List Char) :
    parseValue (fuel + 5) (jsonStringify (payloadJson ⟨a, cI⟩) ++ rest) =
      some (payloadJson ⟨a, cI⟩, rest) := by
  rw [stringify_payload_shape]
  conv_lhs => unfold parseValue
  rw [skipWs_cons_not _ _ (by decide)]
  simp only [show ¬(Char.ofNat 123 = '"') from by decide,
    show ¬(Char.ofNat 123 = 't') from by decide,
    show ¬(Char.ofNat 123 = 'f') from by decide,
    show ¬(Char.ofNat 123 = 'n') from by decide,
    show (Char.ofNat 123).toNat = 123 from by decide,
    if_false, eq_self_iff_true, if_true]
  rw [show (fuel + 4 : Nat) = (fuel + 3) + 1 from rfl, parseObjBody_key]
  rw [show (fuel + 3 : Nat) = (fuel + 1) + 2 from rfl, parseMembers_cont]
  rw [show (fuel + 1 + 1 : Nat) = fuel + 2 from rfl, parseMembers_last]
  rw [show mapSet (mapSet [] "addedAt" (Json.str a)) "contentId" (Json.str cI) =
    [("addedAt", Json.str a), ("contentId", Json.str cI)] from by
      simp [mapSet]]
  rfl

theorem stringify_payload_length (a cI : String) :
    4 ≤ (jsonStringify (payloadJson ⟨a, cI⟩)).length := by
  have := stringify_payload_shape a cI []
  rw [List.append_nil] at this
  rw [this]
  simp [quoteString]
  omega

/-- `JSON.parse ∘ JSON.stringify` on payload objects. -/
theorem jsonParse_payload (a cI : String) :
    jsonParse (String.mk (jsonStringify (payloadJson ⟨a, cI⟩))) =
      some (payloadJson ⟨a, cI⟩) := by
  unfold jsonParse
  rw [show (String.mk (jsonStringify (payloadJson ⟨a, cI⟩))).data =
    jsonStringify (payloadJson ⟨a, cI⟩) from rfl]
  have hlen := stringify_payload_length a cI
  rw [show (jsonStringify (payloadJson ⟨a, cI⟩)).length + 1 =
    ((jsonStringify (payloadJson ⟨a, cI⟩)).length - 4) + 5 from by omega]
  rw [show (jsonStringify (payloadJson ⟨a, cI⟩)) =
    (jsonStringify (payloadJson ⟨a, cI⟩)) ++ [] from (List.append_nil _).symm]
  rw [parseValue_payload]
  rfl

/-! ## Cursor codec claim theorems -/

theorem decodeCursor_some (token : String) (j : Json)
    (h : jsonParse (String.mk (utf8Decode (b64Decode token))) = some j) :
    decodeCursor token =
      if jsTruthy (jsGetField j "addedAt") && jsTruthy (jsGetField j "contentId")
      then Except.ok j else Except.error invalidCursorError := by
  unfold decodeCursor
  rw [h]

theorem decodeCursor_encode (a cI : String) (ha : a ≠ "") (hc : cI ≠ "") :
    decodeCursor (encodeCursor ⟨a, cI⟩) = Except.ok (payloadJson ⟨a, cI⟩) := by
  have hparse : jsonParse (String.mk (utf8Decode
      (b64Decode (encodeCursor ⟨a, cI⟩)))) = some (payloadJson ⟨a, cI⟩) := by
    unfold encodeCursor
    rw [b64Decode_encode _ (utf8Encode_lt _), utf8Decode_encode, jsonParse_payload]
  rw [decodeCursor_some _ _ hparse]
  rw [show jsGetField (payloadJson ⟨a, cI⟩) "addedAt" = some (.str a) from by
    simp [jsGetField, payloadJson, mapGet]]
  rw [show jsGetField (payloadJson ⟨a, cI⟩) "contentId" = some (.str cI) from by
    simp [jsGetField, payloadJson, mapGet]]
  simp [jsTruthy, ha, hc]

/-- C6: for every valid cursor payload (both fields present and
non-empty), decoding the encoding returns exactly the payload object;
`encodeCursor` is a pure function of the payload, hence deterministic. -/
theorem cursor_round_trip (a cI : String) (ha : a ≠ "") (hc : cI ≠ "") :
    decodeCursor (encodeCursor ⟨a, cI⟩) = Except.ok (payloadJson ⟨a, cI⟩) :=
  decodeCursor_encode a cI ha hc

theorem cursor_round_trip_witness :
    ("2024-01-01T00:00:00.000Z" : String) ≠ "" ∧ ("movie-001" : String) ≠ "" ∧
    decodeCursor (encodeCursor ⟨"2024-01-01T00:00:00.000Z", "movie-001"⟩) =
      Except.ok (payloadJson ⟨"2024-01-01T00:00:00.000Z", "movie-001"⟩) :=
  ⟨by decide, by decide,
    cursor_round_trip "2024-01-01T00:00:00.000Z" "movie-001" (by decide) (by decide)⟩

/-- C5: `decodeCursor` fails with `invalid_cursor` whenever the token's
bytes do not parse as JSON (covering non-decodable tokens), and whenever
the parsed value's `addedAt` or `contentId` member is falsy (missing
member, non-object value, empty string); and everything it accepts is
exactly the parsed value with both members truthy — malformed input is
never defaulted or passed through. -/
theorem cursor_rejection (token : String) :
    (jsonParse (String.mk (utf8Decode (b64Decode token))) = none →
      decodeCursor token = Except.error invalidCursorError) ∧
    (∀ j, jsonParse (String.mk (utf8Decode (b64Decode token))) = some j →
      (jsTruthy (jsGetField j "addedAt") = false ∨
        jsTruthy (jsGetField j "contentId") = false) →
      decodeCursor token = Except.error invalidCursorError) ∧
    (∀ p, decodeCursor token = Except.ok p →
      jsonParse (String.mk (utf8Decode (b64Decode token))) = some p ∧
      jsTruthy (jsGetField p "addedAt") = true ∧
      jsTruthy (jsGetField p "contentId") = true) := by
  refine ⟨?_, ?_, ?_⟩
  · intro h
    unfold decodeCursor
    rw [h]
  · intro j hj hfalse
    rw [decodeCursor_some _ _ hj]
    rcases hfalse with h | h <;> simp [h]
  · intro p hp
    rcases hparse : jsonParse (String.mk (utf8Decode (b64Decode token))) with _ | j
    · unfold decodeCursor at hp
      rw [hparse] at hp
      cases hp
    · rw [decodeCursor_some _ _ hparse] at hp
      rcases hand : jsTruthy (jsGetField j "addedAt") &&
          jsTruthy (jsGetField j "contentId") with _ | _
      · rw [hand] at hp
        simp at hp
      · rw [hand] at hp
        simp only [if_true] at hp
        cases hp
        have hboth := hand
        rw [Bool.and_eq_true] at hboth
        exact ⟨rfl, hboth.1, hboth.2⟩

theorem cursor_rejection_witness :
    (jsonParse (String.mk (utf8Decode (b64Decode "###"))) = none ∧
      decodeCursor "###" = Except.error invalidCursorError) ∧
    (jsonParse (String.mk (utf8Decode (b64Decode "eyJhZGRlZEF0IjoiYSJ9"))) =
        some (Json.obj [("addedAt", Json.str "a")]) ∧
      decodeCursor "eyJhZGRlZEF0IjoiYSJ9" = Except.error invalidCursorError) ∧
    (jsonParse (String.mk (utf8Decode
        (b64Decode "eyJhZGRlZEF0IjoiIiwiY29udGVudElkIjoiYiJ9"))) =
        some (Json.obj [("addedAt", Json.str ""), ("contentId", Json.str "b")]) ∧
      decodeCursor "eyJhZGRlZEF0IjoiIiwiY29udGVudElkIjoiYiJ9" =
        Except.error invalidCursorError) :=
  ⟨⟨rfl, (cursor_rejection "###").1 rfl⟩,
   ⟨rfl, (cursor_rejection "eyJhZGRlZEF0IjoiYSJ9").2.1
      (Json.obj [("addedAt", Json.str "a")]) rfl (Or.inr rfl)⟩,
   ⟨rfl, (cursor_rejection "eyJhZGRlZEF0IjoiIiwiY29udGVudElkIjoiYiJ9").2.1
      (Json.obj [("addedAt", Json.str ""), ("contentId", Json.str "b")]) rfl
      (Or.inl rfl)⟩⟩

/-- C3 counterexample: two tokens carrying logically identical cursors —
the same `addedAt` and `contentId` field values, only the serialized field
order differs — both decode successfully, yet they derive different cache
keys, so the same logical page occupies two distinct cache entries. -/
theorem cacheKey_order_counterexample :
    decodeCursor "eyJhZGRlZEF0IjoiYSIsImNvbnRlbnRJZCI6ImIifQ==" =
      Except.ok (Json.obj [("addedAt", Json.str "a"), ("contentId", Json.str "b")]) ∧
    decodeCursor "eyJjb250ZW50SWQiOiJiIiwiYWRkZWRBdCI6ImEifQ==" =
      Except.ok (Json.obj [("contentId", Json.str "b"), ("addedAt", Json.str "a")]) ∧
    jsGetField (Json.obj [("addedAt", Json.str "a"), ("contentId", Json.str "b")])
        "addedAt" =
      jsGetField (Json.obj [("contentId", Json.str "b"), ("addedAt", Json.str "a")])
        "addedAt" ∧
    jsGetField (Json.obj [("addedAt", Json.str "a"), ("contentId", Json.str "b")])
        "contentId" =
      jsGetField (Json.obj [("contentId", Json.str "b"), ("addedAt", Json.str "a")])
        "contentId" ∧
    cacheKey "user-123"
        ⟨20, some (Json.obj [("addedAt", Json.str "a"), ("contentId", Json.str "b")])⟩ ≠
      cacheKey "user-123"
        ⟨20, some (Json.obj [("contentId", Json.str "b"), ("addedAt", Json.str "a")])⟩ :=
  ⟨rfl, rfl, rfl, rfl, by decide⟩

/-- C3 amended: the key derivation is deterministic in `(userId, limit,
decoded cursor object)` — two tokens decoding to the same object always
map to the same cache entry — but it is not order-independent: cursors
with identical field values but different serialized field order can
derive different keys. -/
theorem cacheKey_deterministic (u : String) (limit : Int) (t1 t2 : String)
    (j1 j2 : Json) (h1 : decodeCursor t1 = Except.ok j1)
    (h2 : decodeCursor t2 = Except.ok j2) (hj : j1 = j2) :
    cacheKey u ⟨limit, some j1⟩ = cacheKey u ⟨limit, some j2⟩ ∧
    ∃ s1 s2 o1 o2, decodeCursor s1 = Except.ok o1 ∧
      decodeCursor s2 = Except.ok o2 ∧
      jsGetField o1 "addedAt" = jsGetField o2 "addedAt" ∧
      jsGetField o1 "contentId" = jsGetField o2 "contentId" ∧
      cacheKey "user-123" ⟨20, some o1⟩ ≠ cacheKey "user-123" ⟨20, some o2⟩ := by
  refine ⟨by rw [hj], ?_⟩
  exact ⟨"eyJhZGRlZEF0IjoiYSIsImNvbnRlbnRJZCI6ImIifQ==",
    "eyJjb250ZW50SWQiOiJiIiwiYWRkZWRBdCI6ImEifQ==",
    Json.obj [("addedAt", Json.str "a"), ("contentId", Json.str "b")],
    Json.obj [("contentId", Json.str "b"), ("addedAt", Json.str "a")],
    rfl, rfl, rfl, rfl, by decide⟩

theorem cacheKey_deterministic_witness :
    decodeCursor "eyJhZGRlZEF0IjoiYSIsImNvbnRlbnRJZCI6ImIifQ==" =
      Except.ok (Json.obj [("addedAt", Json.str "a"), ("contentId", Json.str "b")]) ∧
    cacheKey "u" ⟨20, some (Json.obj [("addedAt", Json.str "a"), ("contentId", Json.str "b")])⟩ =
      cacheKey "u" ⟨20, some (Json.obj [("addedAt", Json.str "a"), ("contentId", Json.str "b")])⟩ :=
  ⟨rfl,
    (cacheKey_deterministic "u" 20 "eyJhZGRlZEF0IjoiYSIsImNvbnRlbnRJZCI6ImIifQ=="
      "eyJhZGRlZEF0IjoiYSIsImNvbnRlbnRJZCI6ImIifQ=="
      (Json.obj [("addedAt", Json.str "a"), ("contentId", Json.str "b")])
      (Json.obj [("addedAt", Json.str "a"), ("contentId", Json.str "b")])
      rfl rfl rfl).1⟩

/-! ## Controller and mutation claim theorems -/

/-- C2 (code bug): `limit=500` does NOT produce `400 limit_too_large` —
the zod `refine` rejects the value first, the thrown `ZodError` is not an
`HttpError`, and the error middleware renders it as `500 internal_error`;
moreover every limit surviving the schema is at most 100, so the handler's
own `limit_too_large` throw is unreachable dead code. -/
theorem limit_500_internal_error :
    listEndpoint [] (InMemoryCache.empty ListResult ⟨30, 100⟩) 0 "user-123"
        (some "500") none =
      HttpResponse.err { status := 500, code := "internal_error" } ∧
    parseLimitParam (some "500") = Except.error "limit is invalid" ∧
    ∀ value v, parseLimitParam value = Except.ok v → 0 < v ∧ v ≤ 100 := by
  refine ⟨rfl, rfl, ?_⟩
  intro value v h
  unfold parseLimitParam at h
  rcases hn : (match value with
               | none => some (20 : Int)
               | some s => jsNumberOfString s) with _ | w
  · rw [hn] at h
    cases h
  · rw [hn] at h
    have h2 : (if 0 < w ∧ w ≤ 100 then Except.ok w
        else Except.error "limit is invalid") = Except.ok v := h
    by_cases hv : 0 < w ∧ w ≤ 100
    · rw [if_pos hv] at h2
      cases h2
      exact hv
    · rw [if_neg hv] at h2
      cases h2

theorem limit_500_internal_error_witness :
    parseLimitParam (some "50") = Except.ok 50 ∧ (0 < (50 : Int) ∧ (50 : Int) ≤ 100) :=
  ⟨rfl, limit_500_internal_error.2.2 (some "50") 50 rfl⟩

/-- C10: a List request that omits `limit` behaves exactly as if
`limit=20` had been supplied: the schema's `Number(value ?? 20)` default
makes both parses yield 20, and the endpoint's response is identical for
every store, cache, user and cursor parameter. -/
theorem list_default_limit (db : List MyListItem) (cache : InMemoryCache ListResult)
    (now : Nat) (userId : String) (cursorParam : Option String) :
    parseLimitParam none = Except.ok 20 ∧
    listEndpoint db cache now userId none cursorParam =
      listEndpoint db cache now userId (some "20") cursorParam := by
  refine ⟨rfl, ?_⟩
  unfold listEndpoint handleListMyItems
  rw [show parseLimitParam none = Except.ok 20 from rfl,
    show parseLimitParam (some "20") = Except.ok 20 from rfl]

theorem find?_eraseP_of_unique {α : Type} (p : α → Bool) (l : List α)
    (h : (l.filter p).length ≤ 1) : (l.eraseP p).find? p = none := by
  induction l with
  | nil => rfl
  | cons x rest ih =>
    by_cases hp : p x
    · rw [List.eraseP_cons_of_pos hp]
      rw [List.find?_eq_none]
      intro y hy hpy
      have hfil : (rest.filter p).length = 0 := by
        rw [List.filter_cons_of_pos hp] at h
        simp only [List.length_cons] at h
        omega
      have : y ∈ rest.filter p := List.mem_filter.mpr ⟨hy, hpy⟩
      rw [List.length_eq_zero.mp hfil] at this
      simp at this
    · rw [List.eraseP_cons_of_neg (by simp [hp])]
      have hstep : (x :: rest.eraseP p).find? p = (rest.eraseP p).find? p := by
        simp [List.find?_cons, hp]
      rw [hstep]
      apply ih
      rw [List.filter_cons_of_neg (by simp [hp])] at h
      exact h

/-! ### Path equations for the mutations -/

theorem addToMyList_resolve_error (cat : Catalogue) (db : List MyListItem)
    (cache : InMemoryCache ListResult) (nowIso : String) (createFails : Bool)
    (userId contentId : String) (contentType : ListableContentKind)
    (e2 : HttpError)
    (hres : resolveContentMetadata cat contentId contentType = Except.error e2) :
    addToMyList cat db cache nowIso createFails userId contentId contentType =
      (Except.error (.http e2), db, cache) := by
  unfold addToMyList
  rw [hres]

theorem addToMyList_create_fails (cat : Catalogue) (db : List MyListItem)
    (cache : InMemoryCache ListResult) (nowIso : String)
    (userId contentId : String) (contentType : ListableContentKind)
    (md : String × List String)
    (hres : resolveContentMetadata cat contentId contentType = Except.ok md) :
    addToMyList cat db cache nowIso true userId contentId contentType =
      (Except.error .internal, db, cache) := by
  unfold addToMyList
  rw [hres]
  rfl

theorem addToMyList_duplicate (cat : Catalogue) (db : List MyListItem)
    (cache : InMemoryCache ListResult) (nowIso : String)
    (userId contentId : String) (contentType : ListableContentKind)
    (md : String × List String)
    (hres : resolveContentMetadata cat contentId contentType = Except.ok md)
    (hdup : (db.find? (fun it => it.userId = userId && it.contentId = contentId)).isSome = true) :
    addToMyList cat db cache nowIso false userId contentId contentType =
      (Except.error (.http
        { message := "Content " ++ contentId ++ " already exists in the user's list",
          statusCode := 409, errorCode := "already_in_list" }), db, cache) := by
  unfold addToMyList
  rw [hres, hdup]
  rfl

theorem addToMyList_success (cat : Catalogue) (db : List MyListItem)
    (cache : InMemoryCache ListResult) (nowIso : String)
    (userId contentId : String) (contentType : ListableContentKind)
    (md : String × List String)
    (hres : resolveContentMetadata cat contentId contentType = Except.ok md)
    (hdup : (db.find? (fun it => it.userId = userId && it.contentId = contentId)).isSome = false) :
    addToMyList cat db cache nowIso false userId contentId contentType =
      (Except.ok (MyListItem.toDTO
        { userId := userId, contentId := contentId, contentType := contentType,
          title := md.1, genres := md.2, addedAt := nowIso }),
       db ++ [{ userId := userId, contentId := contentId,
                contentType := contentType, title := md.1, genres := md.2,
                addedAt := nowIso }],
       cache.clear) := by
  unfold addToMyList
  rw [hres, hdup]
  rfl

theorem removeFromMyList_miss (db : List MyListItem)
    (cache : InMemoryCache ListResult) (userId contentId : String)
    (hfind : db.find? (fun it => it.userId = userId && it.contentId = contentId) = none) :
    removeFromMyList db cache userId contentId =
      (Except.error (.http
        { message := "Content " ++ contentId ++ " is not in the user's list",
          statusCode := 404, errorCode := "not_in_list" }), db, cache) := by
  unfold removeFromMyList
  rw [hfind]

theorem removeFromMyList_hit (db : List MyListItem)
    (cache : InMemoryCache ListResult) (userId contentId : String)
    (item : MyListItem)
    (hfind : db.find? (fun it => it.userId = userId && it.contentId = contentId) =
      some item) :
    removeFromMyList db cache userId contentId =
      (Except.ok (),
        db.eraseP (fun it => it.userId = userId && it.contentId = contentId),
        cache.clear) := by
  unfold removeFromMyList
  rw [hfind]

/-- C4: `add` and `remove` either fully succeed — the item is created or
deleted and the whole cache is cleared before returning — or fully fail
with the store and cache exactly as they were (`ContentNotFound`,
`AlreadyInList`, `NotInList`, or an unexpected persistence error);
invalidation never runs on a failure path. -/
theorem mutation_atomicity (cat : Catalogue) (db : List MyListItem)
    (cache : InMemoryCache ListResult) (nowIso : String) (createFails : Bool)
    (userId contentId : String) (contentType : ListableContentKind) :
    (∀ e, (addToMyList cat db cache nowIso createFails userId contentId contentType).1 =
        Except.error e →
      addToMyList cat db cache nowIso createFails userId contentId contentType =
        (Except.error e, db, cache)) ∧
    (∀ dto, (addToMyList cat db cache nowIso createFails userId contentId contentType).1 =
        Except.ok dto →
      ∃ created : MyListItem, dto = created.toDTO ∧ created.userId = userId ∧
        created.contentId = contentId ∧ created.addedAt = nowIso ∧
        addToMyList cat db cache nowIso createFails userId contentId contentType =
          (Except.ok dto, db ++ [created], cache.clear)) ∧
    (∀ e, (removeFromMyList db cache userId contentId).1 = Except.error e →
      removeFromMyList db cache userId contentId = (Except.error e, db, cache)) ∧
    ((removeFromMyList db cache userId contentId).1 = Except.ok () →
      removeFromMyList db cache userId contentId =
        (Except.ok (),
          db.eraseP (fun it => it.userId = userId && it.contentId = contentId),
          cache.clear)) ∧
    ((db.filter (fun it => it.userId = userId && it.contentId = contentId)).length ≤ 1 →
      (removeFromMyList db cache userId contentId).1 = Except.ok () →
      ((removeFromMyList db cache userId contentId).2.1.find?
        (fun it => it.userId = userId && it.contentId = contentId)) = none) := by
  have hadd : ∀ P : (Except ServiceError MyListItemDTO ×
      List MyListItem × InMemoryCache ListResult) → Prop,
      (∀ e2, resolveContentMetadata cat contentId contentType = Except.error e2 →
        P (Except.error (.http e2), db, cache)) →
      (∀ md, resolveContentMetadata cat contentId contentType = Except.ok md →
        createFails = true → P (Except.error .internal, db, cache)) →
      (∀ md, resolveContentMetadata cat contentId contentType = Except.ok md →
        createFails = false →
        (db.find? (fun it => it.userId = userId && it.contentId = contentId)).isSome = true →
        P (Except.error (.http
          { message := "Content " ++ contentId ++ " already exists in the user's list",
            statusCode := 409, errorCode := "already_in_list" }), db, cache)) →
      (∀ md, resolveContentMetadata cat contentId contentType = Except.ok md →
        createFails = false →
        (db.find? (fun it => it.userId = userId && it.contentId = contentId)).isSome = false →
        P (Except.ok (MyListItem.toDTO
            { userId := userId, contentId := contentId, contentType := contentType,
              title := md.1, genres := md.2, addedAt := nowIso }),
          db ++ [{ userId := userId, contentId := contentId,
                   contentType := contentType, title := md.1, genres := md.2,
                   addedAt := nowIso }],
          cache.clear)) →
      P (addToMyList cat db cache nowIso createFails userId contentId contentType) := by
    intro P h1 h2 h3 h4
    rcases hres : resolveContentMetadata cat contentId contentType with e2 | md
    · rw [addToMyList_resolve_error _ _ _ _ _ _ _ _ _ hres]
      exact h1 e2 hres
    · cases hcf : createFails
      · rcases hdup : (db.find? (fun it => it.userId = userId &&
            it.contentId = contentId)).isSome with _ | _
        · rw [addToMyList_success _ _ _ _ _ _ _ _ hres hdup]
          exact h4 md hres hcf hdup
        · rw [addToMyList_duplicate _ _ _ _ _ _ _ _ hres hdup]
          exact h3 md hres hcf hdup
      · rw [addToMyList_create_fails _ _ _ _ _ _ _ _ hres]
        exact h2 md hres hcf
  refine ⟨?_, ?_, ?_, ?_, ?_⟩
  · intro e
    apply hadd (fun r => r.1 = Except.error e →
      r = (Except.error e, db, cache))
    · intro e2 _ he
      cases he
      rfl
    · intro md _ _ he
      cases he
      rfl
    · intro md _ _ _ he
      cases he
      rfl
    · intro md _ _ _ he
      cases he
  · intro dto
    apply hadd (fun r => r.1 = Except.ok dto →
      ∃ created : MyListItem, dto = created.toDTO ∧ created.userId = userId ∧
        created.contentId = contentId ∧ created.addedAt = nowIso ∧
        r = (Except.ok dto, db ++ [created], cache.clear))
    · intro e2 _ he
      cases he
    · intro md _ _ he
      cases he
    · intro md _ _ _ he
      cases he
    · intro md _ _ _ he
      cases he
      exact ⟨_, rfl, rfl, rfl, rfl, rfl⟩
  · intro e he
    rcases hfind : db.find? (fun it => it.userId = userId &&
        it.contentId = contentId) with _ | item
    · rw [removeFromMyList_miss _ _ _ _ hfind]
      rw [removeFromMyList_miss _ _ _ _ hfind] at he
      cases he
      rfl
    · rw [removeFromMyList_hit _ _ _ _ _ hfind] at he
      cases he
  · intro hok
    rcases hfind : db.find? (fun it => it.userId = userId &&
        it.contentId = contentId) with _ | item
    · rw [removeFromMyList_miss _ _ _ _ hfind] at hok
      cases hok
    · exact removeFromMyList_hit _ _ _ _ _ hfind
  · intro huniq hok
    rcases hfind : db.find? (fun it => it.userId = userId &&
        it.contentId = contentId) with _ | item
    · rw [removeFromMyList_miss _ _ _ _ hfind] at hok
      cases hok
    · rw [removeFromMyList_hit _ _ _ _ _ hfind]
      exact find?_eraseP_of_unique _ db huniq

theorem mutation_atomicity_witness :
    ((addToMyList ⟨[⟨"movie-001", "T", []⟩], []⟩
        [⟨"user-123", "movie-001", .Movie, "T", [], "2024"⟩]
        (InMemoryCache.empty ListResult ⟨30, 100⟩) "2025" false
        "user-123" "movie-001" .Movie).1 =
      Except.error (.http
        { message := "Content movie-001 already exists in the user's list",
          statusCode := 409, errorCode := "already_in_list" })) ∧
    (addToMyList ⟨[⟨"movie-001", "T", []⟩], []⟩
        [⟨"user-123", "movie-001", .Movie, "T", [], "2024"⟩]
        (InMemoryCache.empty ListResult ⟨30, 100⟩) "2025" false
        "user-123" "movie-001" .Movie) =
      (Except.error (.http
        { message := "Content movie-001 already exists in the user's list",
          statusCode := 409, errorCode := "already_in_list" }),
       [⟨"user-123", "movie-001", .Movie, "T", [], "2024"⟩],
       InMemoryCache.empty ListResult ⟨30, 100⟩) ∧
    ((removeFromMyList [⟨"user-123", "movie-001", .Movie, "T", [], "2024"⟩]
        (InMemoryCache.empty ListResult ⟨30, 100⟩) "user-123" "movie-001").1 =
      Except.ok ()) ∧
    ((removeFromMyList [⟨"user-123", "movie-001", .Movie, "T", [], "2024"⟩]
        (InMemoryCache.empty ListResult ⟨30, 100⟩) "user-123" "movie-001").2.1.find?
      (fun it => it.userId = "user-123" && it.contentId = "movie-001")) = none := by
  refine ⟨rfl, ?_, rfl, ?_⟩
  · exact (mutation_atomicity ⟨[⟨"movie-001", "T", []⟩], []⟩
      [⟨"user-123", "movie-001", .Movie, "T", [], "2024"⟩]
      (InMemoryCache.empty ListResult ⟨30, 100⟩) "2025" false
      "user-123" "movie-001" .Movie).1 _ rfl
  · exact (mutation_atomicity ⟨[⟨"movie-001", "T", []⟩], []⟩
      [⟨"user-123", "movie-001", .Movie, "T", [], "2024"⟩]
      (InMemoryCache.empty ListResult ⟨30, 100⟩) "2025" false
      "user-123" "movie-001" .Movie).2.2.2.2 (by decide) rfl

theorem listMyList_empty (db : List MyListItem) (copts : CacheOptions)
    (now : Nat) (uid : String) (opts : ListOptions) :
    (listMyList db (InMemoryCache.empty ListResult copts) now uid opts).1 =
      planPage db uid opts := rfl

theorem drivePages_succ (db : List MyListItem) (copts : CacheOptions)
    (now : Nat) (uid : String) (limit : Int) (fuel : Nat) (cursor : Option Json) :
    drivePages db copts now uid limit (fuel + 1) cursor =
      (let r := (listMyList db (InMemoryCache.empty ListResult copts) now uid
        { limit := limit, cursor := cursor }).1
       match r.nextCursor with
       | none => some r.items
       | some tok =>
         match decodeCursor tok with
         | .error _ => none
         | .ok c =>
           match drivePages db copts now uid limit fuel (some c) with
           | none => none
           | some rest => some (r.items ++ rest)) := rfl

theorem sorted_perm_eq {α : Type} {r : α → α → Prop} :
    ∀ {l₁ l₂ : List α}, l₁.Perm l₂ → l₁.Sorted r → l₂.Sorted r →
    (∀ x ∈ l₁, ∀ y ∈ l₁, r x y → r y x → x = y) → l₁ = l₂ := by
  intro l₁
  induction l₁ with
  | nil =>
    intro l₂ hp _ _ _
    exact (List.Perm.nil_eq hp).symm ▸ rfl
  | cons a t ih =>
    intro l₂ hp hs₁ hs₂ hanti
    match l₂ with
    | [] => exact absurd hp.symm (by simp)
    | b :: t₂ =>
      have hab : a = b := by
        by_cases hne : a = b
        · exact hne
        · have hain : a ∈ b :: t₂ := hp.mem_iff.mp (List.mem_cons_self a t)
          have hbin : b ∈ a :: t := hp.mem_iff.mpr (List.mem_cons_self b t₂)
          have haint₂ : a ∈ t₂ := by
            rcases List.mem_cons.mp hain with h | h
            · exact absurd h hne
            · exact h
          have hbint : b ∈ t := by
            rcases List.mem_cons.mp hbin with h | h
            · exact absurd h.symm hne
            · exact h
          have hrab : r a b := (List.pairwise_cons.mp hs₁).1 b hbint
          have hrba : r b a := (List.pairwise_cons.mp hs₂).1 a haint₂
          exact hanti a (List.mem_cons_self a t) b (List.mem_cons_of_mem a hbint)
            hrab hrba
      subst hab
      have ht : t = t₂ := by
        apply ih hp.cons_inv (List.pairwise_cons.mp hs₁).2
          (List.pairwise_cons.mp hs₂).2
        intro x hx y hy
        exact hanti x (List.mem_cons_of_mem a hx) y (List.mem_cons_of_mem a hy)
      rw [ht]

theorem matchesCursor_payload (a cI : String) (y : MyListItem) :
    matchesCursor (payloadJson ⟨a, cI⟩) y =
      decide (cursorLT y ⟨"", cI, .Movie, "", [], a⟩) := rfl

theorem query_none (db : List MyListItem) (uid : String) :
    db.filter (queryFilter uid none) =
      db.filter (fun it => it.userId = uid) := by
  apply List.filter_congr
  intro x _
  simp [queryFilter]

theorem query_cursor (db : List MyListItem) (uid : String) (c : Json) :
    db.filter (queryFilter uid (some c)) =
      (db.filter (fun it => it.userId = uid)).filter (matchesCursor c) := by
  rw [List.filter_filter]
  apply List.filter_congr
  intro x _
  simp [queryFilter, Bool.and_comm]

theorem pageLE_anti_of_pairwise (S : List MyListItem)
    (hdist : S.Pairwise (fun a b => a.contentId ≠ b.contentId)) :
    ∀ x ∈ S, ∀ y ∈ S, pageLE x y → pageLE y x → x = y := by
  have hsym : Symmetric (fun a b : MyListItem => a.contentId ≠ b.contentId) :=
    fun a b h he => h he.symm
  intro x hx y hy hxy hyx
  by_contra hne
  have hcid : x.contentId ≠ y.contentId :=
    List.Pairwise.forall hsym hdist hx hy hne
  rcases hxy with h1 | ⟨h1, h1c⟩ <;> rcases hyx with h2 | ⟨h2, h2c⟩
  · exact absurd h1 (lt_asymm h2)
  · exact absurd h1 (h2 ▸ lt_irrefl _)
  · exact absurd h2 (h1 ▸ lt_irrefl _)
  · exact hcid (le_antisymm h2c h1c)

theorem cursorLT_self_false (x : MyListItem) : ¬ cursorLT x x := by
  intro h
  rcases h with h | ⟨_, h⟩ <;> exact lt_irrefl _ h

theorem filter_cursor_suffix (P T : List MyListItem) (x : MyListItem)
    (hsorted : List.Sorted pageLE (P ++ x :: T))
    (hdist : List.Pairwise (fun a b => a.contentId ≠ b.contentId) (P ++ x :: T)) :
    (P ++ x :: T).filter (fun y => decide (cursorLT y x)) = T := by
  rw [List.filter_append]
  have hsp := List.pairwise_append.mp hsorted
  have hdp := List.pairwise_append.mp hdist
  have hP : P.filter (fun y => decide (cursorLT y x)) = [] := by
    rw [List.filter_eq_nil]
    intro y hy
    have hle : pageLE y x := hsp.2.2 y hy x (List.mem_cons_self x T)
    have hne : y.contentId ≠ x.contentId := hdp.2.2 y hy x (List.mem_cons_self x T)
    simp only [decide_eq_true_eq]
    intro hlt
    rcases hle with h1 | ⟨h1, h1c⟩ <;> rcases hlt with h2 | ⟨h2, h2c⟩
    · exact lt_asymm h1 h2
    · exact absurd h1 (h2 ▸ lt_irrefl _)
    · exact absurd h2 (h1 ▸ lt_irrefl _)
    · exact hne (le_antisymm (le_of_lt h2c) h1c)
  have hx : decide (cursorLT x x) = false := by
    simp [cursorLT_self_false x]
  have hT : T.filter (fun y => decide (cursorLT y x)) = T := by
    rw [List.filter_eq_self]
    intro y hy
    have hle : pageLE x y := (List.pairwise_cons.mp hsp.2.1).1 y hy
    have hne : x.contentId ≠ y.contentId := (List.pairwise_cons.mp hdp.2.1).1 y hy
    simp only [decide_eq_true_eq]
    rcases hle with h1 | ⟨h1, h1c⟩
    · exact Or.inl h1
    · exact Or.inr ⟨h1, lt_of_le_of_ne h1c (fun he => hne he.symm)⟩
  rw [hP, List.filter_cons, hx, hT]
  rfl

theorem planPage_last (db : List MyListItem) (uid : String) (L : Int)
    (cur : Option Json) (T : List MyListItem)
    (hq : (db.filter (queryFilter uid cur)).insertionSort pageLE = T)
    (hlen : (T.length : Int) ≤ L) :
    planPage db uid ⟨L, cur⟩ =
      { items := T.map MyListItem.toDTO, nextCursor := none } := by
  simp only [planPage, hq]
  split_ifs with h
  · rw [decide_eq_true_eq, List.length_take] at h
    omega
  · rw [List.take_of_length_le (by omega)]

theorem planPage_more (db : List MyListItem) (uid : String) (L : Int)
    (cur : Option Json) (T ys : List MyListItem) (x : MyListItem)
    (hq : (db.filter (queryFilter uid cur)).insertionSort pageLE = T)
    (hL : 0 < L) (hlen : L < (T.length : Int))
    (htake : T.take L.toNat = ys ++ [x]) :
    planPage db uid ⟨L, cur⟩ =
      { items := (ys ++ [x]).map MyListItem.toDTO,
        nextCursor := some (encodeCursor ⟨x.addedAt, x.contentId⟩) } := by
  have htt : (T.take (L + 1).toNat).take L.toNat = ys ++ [x] := by
    rw [List.take_take, ← htake]
    congr 1
    omega
  simp only [planPage, hq]
  split_ifs with h
  · rw [htt]
    rw [show (ys ++ [x]).getLast? = some x from List.getLast?_concat _]
  · rw [decide_eq_true_eq, List.length_take] at h
    omega

theorem insertionSort_cursor_eq (db : List MyListItem) (uid : String) (c : Json)
    (S : List MyListItem)
    (hS : (db.filter (fun it => it.userId = uid)).insertionSort pageLE = S)
    (hdist : S.Pairwise (fun a b => a.contentId ≠ b.contentId)) :
    (db.filter (queryFilter uid (some c))).insertionSort pageLE =
      S.filter (matchesCursor c) := by
  have hrows : (db.filter (fun it => it.userId = uid)).Perm S :=
    hS ▸ (List.perm_insertionSort pageLE _).symm
  have hperm : ((db.filter (queryFilter uid (some c))).insertionSort pageLE).Perm
      (S.filter (matchesCursor c)) := by
    refine (List.perm_insertionSort pageLE _).trans ?_
    rw [query_cursor db uid c]
    exact List.Perm.filter _ hrows
  apply sorted_perm_eq hperm (List.sorted_insertionSort pageLE _)
    (List.Pairwise.filter _ (hS ▸ List.sorted_insertionSort pageLE _))
  intro x hx y hy
  have hxS : x ∈ S := by
    have := (List.perm_insertionSort pageLE _).mem_iff.mp hx
    rw [query_cursor db uid c] at this
    exact hrows.mem_iff.mp (List.mem_of_mem_filter this)
  have hyS : y ∈ S := by
    have := (List.perm_insertionSort pageLE _).mem_iff.mp hy
    rw [query_cursor db uid c] at this
    exact hrows.mem_iff.mp (List.mem_of_mem_filter this)
  exact pageLE_anti_of_pairwise S hdist x hxS y hyS

theorem matchesCursor_item (x y : MyListItem) :
    matchesCursor (payloadJson ⟨x.addedAt, x.contentId⟩) y =
      decide (cursorLT y x) := rfl

theorem drivePages_step_last (db : List MyListItem) (copts : CacheOptions)
    (now : Nat) (uid : String) (L : Int) (fuel : Nat) (cur : Option Json)
    (its : List MyListItemDTO)
    (hplan : planPage db uid ⟨L, cur⟩ = { items := its, nextCursor := none }) :
    drivePages db copts now uid L (fuel + 1) cur = some its := by
  rw [drivePages_succ]
  simp only [listMyList_empty, hplan]

theorem drivePages_step_more (db : List MyListItem) (copts : CacheOptions)
    (now : Nat) (uid : String) (L : Int) (fuel : Nat) (cur : Option Json)
    (its : List MyListItemDTO) (tok : String) (c : Json)
    (rest : List MyListItemDTO)
    (hplan : planPage db uid ⟨L, cur⟩ = { items := its, nextCursor := some tok })
    (hdec : decodeCursor tok = Except.ok c)
    (hrec : drivePages db copts now uid L fuel (some c) = some rest) :
    drivePages db copts now uid L (fuel + 1) cur = some (its ++ rest) := by
  rw [drivePages_succ]
  simp only [listMyList_empty, hplan, hdec, hrec]

theorem drivePages_run (db : List MyListItem) (copts : CacheOptions) (now : Nat)
    (uid : String) (L : Int) (hL : 0 < L) (S : List MyListItem)
    (hS : (db.filter (fun it => it.userId = uid)).insertionSort pageLE = S)
    (hdist : S.Pairwise (fun a b => a.contentId ≠ b.contentId))
    (hfields : ∀ it ∈ S, it.addedAt ≠ "" ∧ it.contentId ≠ "") :
    ∀ fuel (P T : List MyListItem) (cur : Option Json),
      S = P ++ T →
      (db.filter (queryFilter uid cur)).insertionSort pageLE = T →
      T.length < fuel →
      drivePages db copts now uid L fuel cur = some (T.map MyListItem.toDTO) := by
  intro fuel
  induction fuel with
  | zero =>
    intro P T cur _ _ h
    omega
  | succ fuel ih =>
    intro P T cur hPT hq hlen
    by_cases hmore : (T.length : Int) ≤ L
    · exact drivePages_step_last db copts now uid L fuel cur _
        (planPage_last db uid L cur T hq hmore)
    · have hTlen : L < (T.length : Int) := by omega
      have htrim : (T.take L.toNat).length = L.toNat := by
        rw [List.length_take]
        omega
      rcases (T.take L.toNat).eq_nil_or_concat with hnil | ⟨ys, x, hconcat⟩
      · rw [hnil] at htrim
        simp at htrim
        omega
      · rw [List.concat_eq_append] at hconcat
        have htake : T.take L.toNat = ys ++ [x] := hconcat
        have hxT : x ∈ T := by
          apply List.take_subset L.toNat T
          rw [htake]
          exact List.mem_append_right ys (List.mem_singleton_self x)
        have hxS : x ∈ S := by
          rw [hPT]
          exact List.mem_append_right P hxT
        have hSdecomp : S = (P ++ ys) ++ x :: T.drop L.toNat := by
          rw [hPT]
          conv_lhs => rw [← List.take_append_drop L.toNat T]
          rw [htake]
          simp
        have hq' : (db.filter (queryFilter uid
            (some (payloadJson ⟨x.addedAt, x.contentId⟩)))).insertionSort pageLE =
            T.drop L.toNat := by
          rw [insertionSort_cursor_eq db uid _ S hS hdist]
          have hfc : S.filter (matchesCursor (payloadJson ⟨x.addedAt, x.contentId⟩)) =
              S.filter (fun y => decide (cursorLT y x)) :=
            List.filter_congr (fun y _ => matchesCursor_item x y)
          rw [hfc, show S = (P ++ ys) ++ x :: T.drop L.toNat from hSdecomp]
          exact filter_cursor_suffix (P ++ ys) (T.drop L.toNat) x
            (hSdecomp ▸ (hS ▸ List.sorted_insertionSort pageLE _))
            (hSdecomp ▸ hdist)
        have hrec : drivePages db copts now uid L fuel
            (some (payloadJson ⟨x.addedAt, x.contentId⟩)) =
            some ((T.drop L.toNat).map MyListItem.toDTO) := by
          apply ih ((P ++ ys) ++ [x]) (T.drop L.toNat) _ _ hq'
          · rw [List.length_drop]
            omega
          · rw [hSdecomp]
            simp
        have hstep := drivePages_step_more db copts now uid L fuel cur
          ((ys ++ [x]).map MyListItem.toDTO)
          (encodeCursor ⟨x.addedAt, x.contentId⟩)
          (payloadJson ⟨x.addedAt, x.contentId⟩)
          ((T.drop L.toNat).map MyListItem.toDTO)
          (planPage_more db uid L cur T ys x hq hL hTlen htake)
          (decodeCursor_encode x.addedAt x.contentId
            (hfields x hxS).1 (hfields x hxS).2)
          hrec
        rw [hstep, ← List.map_append, ← htake, List.take_append_drop]

theorem planPage_items_mem (db : List MyListItem) (uid : String)
    (opts : ListOptions) (dto : MyListItemDTO)
    (h : dto ∈ (planPage db uid opts).items) :
    ∃ it : MyListItem, dto = it.toDTO ∧ queryFilter uid opts.cursor it = true := by
  simp only [planPage] at h
  rcases List.mem_map.mp h with ⟨it, hit, hdto⟩
  refine ⟨it, hdto.symm, ?_⟩
  have hsortmem : it ∈ (db.filter (queryFilter uid opts.cursor)).insertionSort pageLE := by
    split at hit
    · exact List.take_subset _ _ (List.take_subset _ _ hit)
    · exact List.take_subset _ _ hit
  have hfmem : it ∈ db.filter (queryFilter uid opts.cursor) :=
    (List.perm_insertionSort pageLE _).mem_iff.mp hsortmem
  exact (List.mem_filter.mp hfmem).2

/-- C1: for a user whose rows have pairwise-distinct `contentId`s and
non-empty `addedAt`/`contentId` fields, and any limit `L > 0`, repeatedly
calling List — no cursor first, then feeding each returned `nextCursor`
through the controller's decode — yields exactly the user's N items, each
exactly once (a permutation of the user's rows, with equal length), in
descending `(addedAt, contentId)` order; the drive terminates (returns
`some`) only because the final page carries no `nextCursor`.  Moreover a
page served for any cursor `c` contains only rows matching the strict
`$or` bound `addedAt < c.addedAt ∨ (addedAt = c.addedAt ∧ contentId <
c.contentId)`. -/
theorem pagination_complete (db : List MyListItem) (copts : CacheOptions)
    (now : Nat) (userId : String) (limit : Int)
    (hlim : 0 < limit)
    (hdist : (db.filter (fun it => it.userId = userId)).Pairwise
      (fun a b => a.contentId ≠ b.contentId))
    (hfields : ∀ it ∈ db.filter (fun it => it.userId = userId),
      it.addedAt ≠ "" ∧ it.contentId ≠ "") :
    ∃ out : List MyListItemDTO,
      drivePages db copts now userId limit (db.length + 1) none = some out ∧
      out.Perm ((db.filter (fun it => it.userId = userId)).map MyListItem.toDTO) ∧
      out.length = (db.filter (fun it => it.userId = userId)).length ∧
      List.Sorted (fun a b : MyListItemDTO =>
        b.addedAt < a.addedAt ∨ (b.addedAt = a.addedAt ∧ b.contentId ≤ a.contentId))
        out ∧
      ∀ c dto, dto ∈ (listMyList db (InMemoryCache.empty ListResult copts) now
          userId { limit := limit, cursor := some c }).1.items →
        ∃ it : MyListItem, dto = it.toDTO ∧ matchesCursor c it = true := by
  have hS : (db.filter (fun it => it.userId = userId)).insertionSort pageLE =
      (db.filter (fun it => it.userId = userId)).insertionSort pageLE := rfl
  have hSperm : ((db.filter (fun it => it.userId = userId)).insertionSort
      pageLE).Perm (db.filter (fun it => it.userId = userId)) :=
    List.perm_insertionSort pageLE _
  have hsym : Symmetric (fun a b : MyListItem => a.contentId ≠ b.contentId) :=
    fun a b h he => h he.symm
  have hdistS : ((db.filter (fun it => it.userId = userId)).insertionSort
      pageLE).Pairwise (fun a b => a.contentId ≠ b.contentId) :=
    (List.Perm.pairwise_iff (fun h he => h he.symm) hSperm).mpr hdist
  have hfieldsS : ∀ it ∈ (db.filter (fun it => it.userId = userId)).insertionSort
      pageLE, it.addedAt ≠ "" ∧ it.contentId ≠ "" :=
    fun it hit => hfields it (hSperm.mem_iff.mp hit)
  have hq0 : (db.filter (queryFilter userId none)).insertionSort pageLE =
      (db.filter (fun it => it.userId = userId)).insertionSort pageLE := by
    rw [query_none db userId]
  have hlenS : ((db.filter (fun it => it.userId = userId)).insertionSort
      pageLE).length < db.length + 1 := by
    rw [hSperm.length_eq]
    have := List.length_filter_le (fun it => decide (it.userId = userId)) db
    omega
  have hdrive := drivePages_run db copts now userId limit hlim _ hS hdistS
    hfieldsS (db.length + 1) [] _ none (by simp) hq0 hlenS
  refine ⟨((db.filter (fun it => it.userId = userId)).insertionSort
    pageLE).map MyListItem.toDTO, hdrive, hSperm.map MyListItem.toDTO, ?_, ?_, ?_⟩
  · rw [List.length_map, hSperm.length_eq]
  · exact List.Pairwise.map MyListItem.toDTO (fun a b h => h)
      (List.sorted_insertionSort pageLE _)
  · intro c dto h
    rw [listMyList_empty] at h
    rcases planPage_items_mem db userId _ dto h with ⟨it, hdto, hfilt⟩
    refine ⟨it, hdto, ?_⟩
    rw [queryFilter, Bool.and_eq_true] at hfilt
    exact hfilt.2

theorem pagination_complete_witness :
    ((0 : Int) < 2 ∧
      ([⟨"u", "x", .Movie, "t1", [], "2024-02"⟩,
        ⟨"u", "y", .Movie, "t2", [], "2024-01"⟩,
        ⟨"v", "z", .Movie, "t3", [], "2024-03"⟩].filter
          (fun it : MyListItem => it.userId = "u")).Pairwise
        (fun a b => a.contentId ≠ b.contentId) ∧
      (∀ it ∈ [⟨"u", "x", .Movie, "t1", [], "2024-02"⟩,
        ⟨"u", "y", .Movie, "t2", [], "2024-01"⟩,
        ⟨"v", "z", .Movie, "t3", [], "2024-03"⟩].filter
          (fun it : MyListItem => it.userId = "u"),
        it.addedAt ≠ "" ∧ it.contentId ≠ "")) ∧
    (∃ out : List MyListItemDTO,
      drivePages [⟨"u", "x", .Movie, "t1", [], "2024-02"⟩,
          ⟨"u", "y", .Movie, "t2", [], "2024-01"⟩,
          ⟨"v", "z", .Movie, "t3", [], "2024-03"⟩] ⟨30, 100⟩ 0 "u" 2 4 none =
        some out ∧
      out.Perm (([⟨"u", "x", .Movie, "t1", [], "2024-02"⟩,
        ⟨"u", "y", .Movie, "t2", [], "2024-01"⟩,
        ⟨"v", "z", .Movie, "t3", [], "2024-03"⟩].filter
          (fun it : MyListItem => it.userId = "u")).map MyListItem.toDTO) ∧
      out.length = ([⟨"u", "x", .Movie, "t1", [], "2024-02"⟩,
        ⟨"u", "y", .Movie, "t2", [], "2024-01"⟩,
        ⟨"v", "z", .Movie, "t3", [], "2024-03"⟩].filter
          (fun it : MyListItem => it.userId = "u")).length ∧
      List.Sorted (fun a b : MyListItemDTO =>
        b.addedAt < a.addedAt ∨ (b.addedAt = a.addedAt ∧ b.contentId ≤ a.contentId))
        out ∧
      ∀ c dto, dto ∈ (listMyList [⟨"u", "x", .Movie, "t1", [], "2024-02"⟩,
          ⟨"u", "y", .Movie, "t2", [], "2024-01"⟩,
          ⟨"v", "z", .Movie, "t3", [], "2024-03"⟩]
          (InMemoryCache.empty ListResult ⟨30, 100⟩) 0 "u"
          { limit := 2, cursor := some c }).1.items →
        ∃ it : MyListItem, dto = it.toDTO ∧ matchesCursor c it = true) :=
  ⟨⟨by decide, by decide, by decide⟩,
    pagination_complete [⟨"u", "x", .Movie, "t1", [], "2024-02"⟩,
      ⟨"u", "y", .Movie, "t2", [], "2024-01"⟩,
      ⟨"v", "z", .Movie, "t3", [], "2024-03"⟩] ⟨30, 100⟩ 0 "u" 2
      (by decide) (by decide) (by decide)⟩

